import Mathlib

/-!
User entity, in-memory repository and user service.

A shallow embedding of `internal/domain/user` (entity, repository, service).

* Go strings are Lean `String`s, read as sequences of code points (the `regexp`
  package decodes UTF-8); the regular expression of `Email.Validate` is kept as
  a syntax tree and run by a derivative matcher over the characters.
* `time.Now()` is an explicit argument `now`, an instant counted in nanoseconds
  since the Unix epoch; `UnixNano` truncates it to an `int64`.
* Go's `error` values are the five package sentinels and `%w` wrappers; a pair
  `(*User, error)` is a pair of options, `none` standing for nil.
* The in-memory repository (`MockUserRepository`, the same in both test files)
  is its map `users`. `Save` and `Update` refuse a nil reference and store a
  user under its own `ID`, so an entry is never nil and the model keeps one
  `User` object per key: it describes the states in which no object is held
  under two keys, which are all the states that calls reach. A reference handed
  out by `FindByID` is the object held under that key: a write through it is a
  write to that entry.
* Where an object may be held under several keys, the map of references and the
  memory are kept apart (namespace `Ptr`); `Ptr.view_UpdateUser` shows that
  `UpdateUser` is the same on both whenever no object is shared.
* The order in which `range` visits a map is chosen by the runtime; `FindByEmail`
  takes it as the argument `order`.
-/

namespace UserDomain

/-! ## Regular expressions (the fragment used by the email pattern) -/

/-- Regular expressions over characters, with character classes. -/
inductive Regex where
  | empty : Regex
  | eps : Regex
  | cls (p : Char → Bool) : Regex
  | alt (r s : Regex) : Regex
  | cat (r s : Regex) : Regex
  | star (r : Regex) : Regex

namespace Regex

/-- The literal character `c`. -/
def lit (c : Char) : Regex := cls (fun x => x == c)

/-- The postfix operator `+`: one or more repetitions. -/
def plus (r : Regex) : Regex := cat r (star r)

/-- The counted repetition `{n,}`: at least `n` repetitions. -/
def atLeast : Nat → Regex → Regex
  | 0, r => star r
  | n + 1, r => cat r (atLeast n r)

/-- Whether the expression accepts the empty word. -/
def nullable : Regex → Bool
  | empty => false
  | eps => true
  | cls _ => false
  | alt r s => nullable r || nullable s
  | cat r s => nullable r && nullable s
  | star _ => true

/-- Brzozowski derivative with respect to one character. -/
def deriv : Regex → Char → Regex
  | empty, _ => empty
  | eps, _ => empty
  | cls p, c => if p c then eps else empty
  | alt r s, c => alt (deriv r c) (deriv s c)
  | cat r s, c =>
      if nullable r then alt (cat (deriv r c) s) (deriv s c) else cat (deriv r c) s
  | star r, c => cat (deriv r c) (star r)

/-- Anchored match (`^...$` without the multi-line flag): the whole input must be
consumed. -/
def matchChars (r : Regex) : List Char → Bool
  | [] => nullable r
  | c :: cs => matchChars (deriv r c) cs

/-- The method `MatchString` of a compiled, fully anchored pattern. -/
def MatchString (r : Regex) (s : String) : Bool := matchChars r s.data

/-- The words denoted by an expression. -/
def lang : Regex → Language Char
  | empty => 0
  | eps => 1
  | cls p => {w | ∃ c, p c = true ∧ w = [c]}
  | alt r s => lang r + lang s
  | cat r s => lang r * lang s
  | star r => KStar.kstar (lang r)

end Regex

/-! ## Character classes of the email pattern -/

/-- The class `a-z`. -/
def isLower (c : Char) : Bool := decide (97 ≤ c.toNat) && decide (c.toNat ≤ 122)

/-- The class `A-Z`. -/
def isUpper (c : Char) : Bool := decide (65 ≤ c.toNat) && decide (c.toNat ≤ 90)

/-- The class `0-9`. -/
def isDigit (c : Char) : Bool := decide (48 ≤ c.toNat) && decide (c.toNat ≤ 57)

/-- The class `[a-zA-Z]`. -/
def isLetter (c : Char) : Bool := isLower c || isUpper c

/-- The class `[a-zA-Z0-9._%+-]`. -/
def isLocalChar (c : Char) : Bool :=
  isLower c || isUpper c || isDigit c || c == '.' || c == '_' || c == '%' || c == '+' || c == '-'

/-- The class `[a-zA-Z0-9.-]`. -/
def isDomainChar (c : Char) : Bool :=
  isLower c || isUpper c || isDigit c || c == '.' || c == '-'

/-- The pattern `^[a-zA-Z0-9._%+-]+@[a-zA-Z0-9.-]+\.[a-zA-Z]{2,}$`. -/
def emailRegex : Regex :=
  Regex.cat (Regex.plus (Regex.cls isLocalChar))
    (Regex.cat (Regex.lit '@')
      (Regex.cat (Regex.plus (Regex.cls isDomainChar))
        (Regex.cat (Regex.lit '.') (Regex.atLeast 2 (Regex.cls isLetter)))))

/-! ## Errors -/

/-- The package-level error values created with `errors.New`. -/
inductive Sentinel where
  | ErrInvalidEmail
  | ErrEmptyName
  | ErrUserNotFound
  | ErrUserAlreadyExists
  | ErrInvalidUser
  deriving DecidableEq, Repr

/-- The text given to `errors.New` for each sentinel. -/
def Sentinel.text : Sentinel → String
  | .ErrInvalidEmail => "invalid email format"
  | .ErrEmptyName => "name cannot be empty"
  | .ErrUserNotFound => "user not found"
  | .ErrUserAlreadyExists => "user already exists"
  | .ErrInvalidUser => "invalid user data"

/-- A non-nil Go `error`: a sentinel, or `fmt.Errorf(context + ": %w", cause)`. -/
inductive GoError where
  | sentinel (s : Sentinel) : GoError
  | wrapf (context : String) (cause : GoError) : GoError
  deriving DecidableEq, Repr

namespace GoError

/-- The method `Error()`: the message of the error. -/
def Error : GoError → String
  | sentinel s => s.text
  | wrapf context cause => context ++ ": " ++ Error cause

/-- The function `errors.Is(err, target)` for a sentinel target: follows the
`%w` chain. -/
def Is : GoError → Sentinel → Bool
  | sentinel s, target => decide (s = target)
  | wrapf _ cause, target => Is cause target

end GoError

/-! ## Entity -/

/-- The defined type `Email`. -/
abbrev Email := String

/-- The defined type `UserID`. -/
abbrev UserID := String

/-- A value of `time.Time`, as nanoseconds elapsed since the Unix epoch. -/
abbrev Time := Int

/-- The method `UnixNano`: the instant as an `int64`. -/
def Time.UnixNano (t : Time) : Int := (t + 2 ^ 63) % 2 ^ 64 - 2 ^ 63

/-- The struct `User`. -/
structure User where
  ID : UserID
  Email : Email
  Name : String
  CreatedAt : Time
  UpdatedAt : Time
  deriving DecidableEq, Repr

/-- The method `Email.Validate`; `none` is the nil error. -/
def Email.Validate (e : Email) : Option GoError :=
  if e = "" then some (.sentinel .ErrInvalidEmail)
  else if !(Regex.MatchString emailRegex e) then some (.sentinel .ErrInvalidEmail)
  else none

/-- The function `NewUser`; `now` is the reading of `time.Now()`. The result is
the Go pair `(*User, error)`, with `none` for nil. -/
def NewUser (now : Time) (email : String) (name : String) : Option User × Option GoError :=
  match Email.Validate email with
  | some err => (none, some (.wrapf "email validation failed" err))
  | none =>
    if name = "" then (none, some (.sentinel .ErrEmptyName))
    else
      (some
        { ID := "user_" ++ toString (Time.UnixNano now)
          Email := email
          Name := name
          CreatedAt := now
          UpdatedAt := now },
       none)

/-- The method `User.Validate`. -/
def User.Validate (u : User) : Option GoError :=
  match Email.Validate u.Email with
  | some err => some (.wrapf "user email validation failed" err)
  | none => if u.Name = "" then some (.sentinel .ErrEmptyName) else none

/-- The method `User.Update`: the returned error and the receiver after the call;
`now` is the reading of `time.Now()`. -/
def User.Update (u : User) (now : Time) (email : String) (name : String) :
    Option GoError × User :=
  match Email.Validate email with
  | some err => (some (.wrapf "email validation failed" err), u)
  | none =>
    if name = "" then (some (.sentinel .ErrEmptyName), u)
    else (none, { u with Email := email, Name := name, UpdatedAt := now })

/-! ## In-memory repository -/

/-- The struct `MockUserRepository`: the map `users`, from identifiers to the
objects they refer to. -/
structure MockUserRepository where
  users : UserID → Option User

/-- The function `NewMockUserRepository`: the empty map. -/
def NewMockUserRepository : MockUserRepository := ⟨fun _ => none⟩

namespace MockUserRepository

/-- The map assignment `m.users[id] = user`. -/
def put (m : MockUserRepository) (id : UserID) (user : User) : MockUserRepository :=
  ⟨fun k => if k = id then some user else m.users k⟩

/-- The builtin `delete(m.users, id)`. -/
def remove (m : MockUserRepository) (id : UserID) : MockUserRepository :=
  ⟨fun k => if k = id then none else m.users k⟩

/-- The method `Save`; the argument `none` is the nil reference. -/
def Save (m : MockUserRepository) (user : Option User) : Option GoError × MockUserRepository :=
  match user with
  | none => (some (.sentinel .ErrInvalidUser), m)
  | some u => (none, m.put u.ID u)

/-- The method `FindByID`. -/
def FindByID (m : MockUserRepository) (id : UserID) : Option User × Option GoError :=
  match m.users id with
  | none => (none, some (.sentinel .ErrUserNotFound))
  | some user => (some user, none)

/-- The method `FindByEmail`. The loop `for _, user := range m.users` visits the
entries in an order chosen by the runtime: `order` lists the keys as visited. -/
def FindByEmail (m : MockUserRepository) (order : List UserID) (email : Email) :
    Option User × Option GoError :=
  match order with
  | [] => (none, some (.sentinel .ErrUserNotFound))
  | id :: rest =>
    match m.users id with
    | some user => if user.Email = email then (some user, none) else FindByEmail m rest email
    | none => FindByEmail m rest email

/-- The method `Update`; the argument `none` is the nil reference. -/
def Update (m : MockUserRepository) (user : Option User) : Option GoError × MockUserRepository :=
  match user with
  | none => (some (.sentinel .ErrInvalidUser), m)
  | some u =>
    match m.users u.ID with
    | none => (some (.sentinel .ErrUserNotFound), m)
    | some _ => (none, m.put u.ID u)

/-- The method `Delete`. -/
def Delete (m : MockUserRepository) (id : UserID) : Option GoError × MockUserRepository :=
  match m.users id with
  | none => (some (.sentinel .ErrUserNotFound), m)
  | some _ => (none, m.remove id)

/-- What a `range` over the map may yield: every key once, in any order. -/
def RangeOrder (m : MockUserRepository) (order : List UserID) : Prop :=
  order.Nodup ∧ ∀ id, id ∈ order ↔ (m.users id).isSome = true

end MockUserRepository

/-! ## Service -/

/-- The struct `UserService`, over the in-memory repository. -/
structure UserService where
  repo : MockUserRepository

/-- The function `NewUserService`. -/
def NewUserService (repo : MockUserRepository) : UserService := ⟨repo⟩

namespace UserService

/-- The method `CreateUser`: the returned pair and the service afterwards. -/
def CreateUser (s : UserService) (order : List UserID) (now : Time) (email : String)
    (name : String) : (Option User × Option GoError) × UserService :=
  match s.repo.FindByEmail order email with
  | (some _, none) => ((none, some (.sentinel .ErrUserAlreadyExists)), s)
  | _ =>
    match NewUser now email name with
    | (_, some err) => ((none, some (.wrapf "failed to create user" err)), s)
    | (user, none) =>
      match s.repo.Save user with
      | (some err, repo) => ((none, some (.wrapf "failed to save user" err)), ⟨repo⟩)
      | (none, repo) => ((user, none), ⟨repo⟩)

/-- The method `GetUserByID`. -/
def GetUserByID (s : UserService) (id : UserID) : Option User × Option GoError :=
  match s.repo.FindByID id with
  | (_, some err) => (none, some (.wrapf "failed to get user by ID" err))
  | (user, none) => (user, none)

/-- The method `GetUserByEmail`. -/
def GetUserByEmail (s : UserService) (order : List UserID) (email : String) :
    Option User × Option GoError :=
  match s.repo.FindByEmail order email with
  | (_, some err) => (none, some (.wrapf "failed to get user by email" err))
  | (user, none) => (user, none)

/-- The method `UpdateUser`: the returned error and the service afterwards. The
reference `user` returned by `FindByID` is the object held under `id`, so the
effect of `user.Update` is visible in the map before `repo.Update` runs. No other
key holds that object here; `Ptr.UserService.UpdateUser` is the method where
keys may share one. -/
def UpdateUser (s : UserService) (now : Time) (id : UserID) (email : String) (name : String) :
    Option GoError × UserService :=
  match s.repo.FindByID id with
  | (_, some err) => (some (.wrapf "failed to find user for update" err), s)
  | (none, none) => (none, s) -- never returned by `FindByID`
  | (some user, none) =>
    match user.Update now email name with
    | (some err, user1) => (some (.wrapf "failed to update user" err), ⟨s.repo.put id user1⟩)
    | (none, user1) =>
      match (s.repo.put id user1).Update (some user1) with
      | (some err, repo) => (some (.wrapf "failed to save updated user" err), ⟨repo⟩)
      | (none, repo) => (none, ⟨repo⟩)

/-- The method `DeleteUser`: the returned error and the service afterwards. -/
def DeleteUser (s : UserService) (id : UserID) : Option GoError × UserService :=
  match s.repo.FindByID id with
  | (_, some err) => (some (.wrapf "failed to find user for deletion" err), s)
  | (_, none) =>
    match s.repo.Delete id with
    | (some err, repo) => (some (.wrapf "failed to delete user" err), ⟨repo⟩)
    | (none, repo) => (none, ⟨repo⟩)

end UserService

/-! ## The email form in the words of the specification -/

/-- An ASCII letter. -/
def SpecLetter (c : Char) : Prop := c.isAlpha = true

/-- ASCII letters, digits and the characters `. _ % + -`. -/
def SpecLocalChar (c : Char) : Prop :=
  c.isAlpha = true ∨ c.isDigit = true ∨ c ∈ ['.', '_', '%', '+', '-']

/-- ASCII letters, digits and the characters `. -`. -/
def SpecDomainChar (c : Char) : Prop :=
  c.isAlpha = true ∨ c.isDigit = true ∨ c ∈ ['.', '-']

/-- The form `L + "@" + D + "." + T`: a non-empty local part, a non-empty domain
and a top-level label of at least two letters, with nothing before or after. -/
def EmailForm (s : String) : Prop :=
  ∃ L D T : String, s = L ++ "@" ++ D ++ "." ++ T ∧
    L ≠ "" ∧ (∀ c ∈ L.data, SpecLocalChar c) ∧
    D ≠ "" ∧ (∀ c ∈ D.data, SpecDomainChar c) ∧
    2 ≤ T.length ∧ (∀ c ∈ T.data, SpecLetter c)

/-- The domain part of an address: the text after the (first) `@`. -/
def domainPart (s : String) : List Char :=
  (s.data.dropWhile (fun c => c != '@')).drop 1

/-- The dot-separated labels of a text. -/
def dotLabels : List Char → List (List Char)
  | [] => [[]]
  | c :: cs =>
    if c = '.' then [] :: dotLabels cs
    else
      match dotLabels cs with
      | [] => [[c]]
      | l :: ls => (c :: l) :: ls

/-- A sequence of `Update` calls on one user, each with its clock reading, its
email and its name; the result is the user after the last call. -/
def applyUpdates (u : User) : List (Time × String × String) → User
  | [] => u
  | (now, email, name) :: rest => applyUpdates (u.Update now email name).2 rest

/-! ## Sample states -/

/-- A user as `NewUser` builds it at clock reading 1. -/
def sampleUser : User := ⟨"user_1", "test@example.com", "Test User", 1, 1⟩

/-- A service whose repository holds `sampleUser` under its identifier. -/
def sampleService : UserService := ⟨NewMockUserRepository.put "user_1" sampleUser⟩

/-- A service whose repository holds, under the key `a`, a user whose `ID` is `b`. -/
def strayService : UserService :=
  ⟨NewMockUserRepository.put "a" ⟨"b", "test@example.com", "Test User", 1, 1⟩⟩

/-- A repository holding two users with one email, under the keys `a` and `b`. -/
def twinRepo : MockUserRepository :=
  (NewMockUserRepository.put "a" ⟨"a", "twin@example.com", "First", 1, 1⟩).put "b"
    ⟨"b", "twin@example.com", "Second", 2, 2⟩

/-! ## Sequences of calls -/

/-- A call on the repository, or on the service built over it, with its
arguments (and, where the call reads them, the clock and the order of `range`). -/
inductive Call where
  | save (user : Option User) : Call
  | update (user : Option User) : Call
  | delete (id : UserID) : Call
  | createUser (order : List UserID) (now : Time) (email name : String) : Call
  | updateUser (now : Time) (id : UserID) (email name : String) : Call
  | deleteUser (id : UserID) : Call

namespace Call

/-- Whether the call is one of `CreateUser`, `UpdateUser`, `DeleteUser`. -/
def isService : Call → Bool
  | save _ => false
  | update _ => false
  | delete _ => false
  | createUser _ _ _ _ => true
  | updateUser _ _ _ _ => true
  | deleteUser _ => true

/-- The error a call returns on the repository `m`. -/
def error (m : MockUserRepository) : Call → Option GoError
  | save user => (m.Save user).1
  | update user => (m.Update user).1
  | delete id => (m.Delete id).1
  | createUser order now email name => (UserService.CreateUser ⟨m⟩ order now email name).1.2
  | updateUser now id email name => (UserService.UpdateUser ⟨m⟩ now id email name).1
  | deleteUser id => (UserService.DeleteUser ⟨m⟩ id).1

/-- The repository after a call on the repository `m`. -/
def step (m : MockUserRepository) : Call → MockUserRepository
  | save user => (m.Save user).2
  | update user => (m.Update user).2
  | delete id => (m.Delete id).2
  | createUser order now email name => (UserService.CreateUser ⟨m⟩ order now email name).2.repo
  | updateUser now id email name => (UserService.UpdateUser ⟨m⟩ now id email name).2.repo
  | deleteUser id => (UserService.DeleteUser ⟨m⟩ id).2.repo

/-- Whether the call can take place on `m`: the order given to `CreateUser` is
one in which `range` may visit the map. -/
def Admissible (m : MockUserRepository) : Call → Prop
  | createUser order _ _ _ => m.RangeOrder order
  | _ => True

end Call

/-- The repository after a sequence of calls, starting from `m`. -/
def run (m : MockUserRepository) : List Call → MockUserRepository
  | [] => m
  | c :: cs => run (Call.step m c) cs

/-- Every call of the sequence can take place on the repository it meets. -/
def AdmissibleRun (m : MockUserRepository) : List Call → Prop
  | [] => True
  | c :: cs => c.Admissible m ∧ AdmissibleRun (Call.step m c) cs

/-- The errors returned by the calls of a sequence, in order. -/
def runErrors (m : MockUserRepository) : List Call → List (Option GoError)
  | [] => []
  | c :: cs => c.error m :: runErrors (Call.step m c) cs

/-- Every entry of the map holds a user whose `ID` is the key of the entry. -/
def KeysAreIDs (m : MockUserRepository) : Prop :=
  ∀ id u, m.users id = some u → u.ID = id

/-- No two entries of the map hold users with the same email. -/
def UniqueEmails (m : MockUserRepository) : Prop :=
  ∀ id1 id2 u1 u2, m.users id1 = some u1 → m.users id2 = some u2 → u1.Email = u2.Email →
    id1 = id2

/-- Two users are created with different emails, then the second is given the
email of the first. -/
def duplicateEmailCalls : List Call :=
  [ .createUser [] 1 "first@example.com" "First",
    .createUser ["user_1"] 2 "second@example.com" "Second",
    .updateUser 3 "user_2" "first@example.com" "Second" ]

/-! ## Reading a decimal numeral back -/

/-- The number written by a list of decimal digits, most significant first. -/
def decodeDigits (ds : List Char) : Nat :=
  ds.foldl (fun acc c => 10 * acc + (c.toNat - 48)) 0

/-! ## The repository as a map of references

The map `users` holds references (`*User`), and two keys may hold the same
object. Here the references and the memory they point into are kept apart, so
that a write through a reference is seen under every key that holds it. -/

/-- The address of a `User` object. -/
abbrev Ref := Nat

namespace Ptr

/-- The struct `MockUserRepository` with its map `users` of references, and the
memory `heap` holding the object at each address. -/
structure MockUserRepository where
  heap : Ref → User
  users : UserID → Option Ref

namespace MockUserRepository

/-- The user stored under a key: the object its reference points to. -/
def lookup (m : MockUserRepository) (id : UserID) : Option User :=
  (m.users id).map m.heap

/-- The contents of the repository, key by key. -/
def view (m : MockUserRepository) : UserDomain.MockUserRepository := ⟨m.lookup⟩

/-- Every key maps to a user whose `ID` is that key. -/
def KeysAreIDs (m : MockUserRepository) : Prop :=
  ∀ id p, m.users id = some p → (m.heap p).ID = id

/-- The method `FindByID`: the reference held under `id`. -/
def FindByID (m : MockUserRepository) (id : UserID) : Option Ref × Option GoError :=
  match m.users id with
  | none => (none, some (.sentinel .ErrUserNotFound))
  | some user => (some user, none)

/-- The call `user.Update(email, name)` on the object at the address `user`: the
returned error, and the memory after the call. -/
def updateAt (m : MockUserRepository) (user : Ref) (now : Time) (email : String)
    (name : String) : Option GoError × MockUserRepository :=
  (((m.heap user).Update now email name).1,
   { m with heap := fun q => if q = user then ((m.heap user).Update now email name).2
                             else m.heap q })

/-- The method `Update`; the argument `none` is the nil reference. -/
def Update (m : MockUserRepository) (user : Option Ref) : Option GoError × MockUserRepository :=
  match user with
  | none => (some (.sentinel .ErrInvalidUser), m)
  | some p =>
    match m.users (m.heap p).ID with
    | none => (some (.sentinel .ErrUserNotFound), m)
    | some _ =>
      (none, { m with users := fun k => if k = (m.heap p).ID then some p else m.users k })

end MockUserRepository

/-- The struct `UserService`, over the repository of references. -/
structure UserService where
  repo : MockUserRepository

namespace UserService

/-- The method `GetUserByID`: the reference returned, and the error. -/
def GetUserByID (s : UserService) (id : UserID) : Option Ref × Option GoError :=
  match s.repo.FindByID id with
  | (_, some err) => (none, some (.wrapf "failed to get user by ID" err))
  | (user, none) => (user, none)

/-- The method `UpdateUser`: the returned error and the service afterwards. -/
def UpdateUser (s : UserService) (now : Time) (id : UserID) (email : String) (name : String) :
    Option GoError × UserService :=
  match s.repo.FindByID id with
  | (_, some err) => (some (.wrapf "failed to find user for update" err), s)
  | (none, none) => (none, s) -- never returned by `FindByID`
  | (some user, none) =>
    match s.repo.updateAt user now email name with
    | (some err, repo1) => (some (.wrapf "failed to update user" err), ⟨repo1⟩)
    | (none, repo1) =>
      match repo1.Update (some user) with
      | (some err, repo) => (some (.wrapf "failed to save updated user" err), ⟨repo⟩)
      | (none, repo) => (none, ⟨repo⟩)

end UserService

/-- One object, whose `ID` is `b`, held under the key `a` only. -/
def strayRepo : MockUserRepository :=
  { heap := fun _ => ⟨"b", "test@example.com", "Test User", 1, 1⟩
    users := fun k => if k = "a" then some 0 else none }

/-- One object, whose `ID` is `b`, held under both keys `a` and `b`: the state
after `Save(p)`, `p.ID = "b"`, `Save(p)`. -/
def sharedRepo : MockUserRepository :=
  { heap := fun _ => ⟨"b", "test@example.com", "Test User", 1, 1⟩
    users := fun k => if k = "a" then some 0 else if k = "b" then some 0 else none }

/-- Two objects, each held under its own `ID`. -/
def ownKeysRepo : MockUserRepository :=
  { heap := fun q =>
      if q = 0 then ⟨"user_1", "first@example.com", "First", 1, 1⟩
      else ⟨"user_2", "second@example.com", "Second", 2, 2⟩
    users := fun k =>
      if k = "user_1" then some 0 else if k = "user_2" then some 1 else none }

end Ptr

/-! ## The matcher decides the denoted language -/

namespace Regex

theorem mem_lang_cls (p : Char → Bool) (w : List Char) :
    w ∈ lang (cls p) ↔ ∃ c, p c = true ∧ w = [c] := Iff.rfl

theorem nullable_iff (r : Regex) : nullable r = true ↔ [] ∈ lang r := by
  induction r with
  | empty => simp [nullable, lang]
  | eps => simp [nullable, lang]
  | cls p => simp [nullable, mem_lang_cls]
  | alt r s ihr ihs => simp [nullable, lang, Language.mem_add, ihr, ihs]
  | cat r s ihr ihs => simp [nullable, lang, Language.mem_mul, ihr, ihs]
  | star r _ => simp [nullable, lang, Language.nil_mem_kstar]

theorem cons_mem_mul (l m : Language Char) (c : Char) (w : List Char) :
    c :: w ∈ l * m ↔
      ([] ∈ l ∧ c :: w ∈ m) ∨ ∃ a b, c :: a ∈ l ∧ b ∈ m ∧ a ++ b = w := by
  rw [Language.mem_mul]
  constructor
  · rintro ⟨a, ha, b, hb, hab⟩
    cases a with
    | nil => left; simp at hab; subst hab; exact ⟨ha, hb⟩
    | cons x a =>
      right
      simp at hab
      obtain ⟨rfl, rfl⟩ := hab
      exact ⟨a, b, ha, hb, rfl⟩
  · rintro (⟨h1, h2⟩ | ⟨a, b, ha, hb, rfl⟩)
    · exact ⟨[], h1, c :: w, h2, rfl⟩
    · exact ⟨c :: a, ha, b, hb, rfl⟩

theorem cons_mem_kstar (l : Language Char) (c : Char) (w : List Char) :
    c :: w ∈ KStar.kstar l ↔ ∃ a b, c :: a ∈ l ∧ b ∈ KStar.kstar l ∧ a ++ b = w := by
  constructor
  · intro h
    rw [Language.mem_kstar_iff_exists_nonempty] at h
    obtain ⟨S, hS, hall⟩ := h
    cases S with
    | nil => simp at hS
    | cons y S =>
      have hy := hall y (List.mem_cons_self _ _)
      cases y with
      | nil => exact absurd rfl hy.2
      | cons x a =>
        simp at hS
        obtain ⟨rfl, rfl⟩ := hS
        refine ⟨a, S.flatten, hy.1, ?_, rfl⟩
        rw [Language.mem_kstar]
        exact ⟨S, rfl, fun z hz => (hall z (List.mem_cons_of_mem _ hz)).1⟩
  · rintro ⟨a, b, ha, hb, rfl⟩
    rw [Language.mem_kstar] at hb ⊢
    obtain ⟨S, rfl, hS⟩ := hb
    refine ⟨(c :: a) :: S, by simp, ?_⟩
    intro y hy
    rcases List.mem_cons.mp hy with rfl | hy
    · exact ha
    · exact hS y hy

theorem deriv_iff (r : Regex) (c : Char) :
    ∀ w : List Char, w ∈ lang (deriv r c) ↔ c :: w ∈ lang r := by
  induction r with
  | empty => intro w; simp [deriv, lang]
  | eps => intro w; simp [deriv, lang]
  | cls p =>
    intro w
    rw [mem_lang_cls]
    by_cases h : p c = true
    · simp only [deriv, h, if_true, lang, Language.mem_one]
      constructor
      · rintro rfl; exact ⟨c, h, rfl⟩
      · rintro ⟨x, -, hcx⟩
        simp at hcx
        exact hcx.2
    · simp only [deriv, h, lang]
      constructor
      · intro hw; exact absurd hw (Language.not_mem_zero w)
      · rintro ⟨x, hx, hcx⟩
        simp at hcx
        exact absurd (hcx.1 ▸ hx) h
  | alt r s ihr ihs => intro w; simp [deriv, lang, Language.mem_add, ihr, ihs]
  | cat r s ihr ihs =>
    intro w
    simp only [lang]
    rw [cons_mem_mul]
    by_cases h : nullable r = true
    · simp only [deriv, h, if_true, lang, Language.mem_add, Language.mem_mul, ihr, ihs,
        ← nullable_iff, true_and]
      constructor
      · rintro (⟨a, ha, b, hb, rfl⟩ | h2)
        · exact Or.inr ⟨a, b, ha, hb, rfl⟩
        · exact Or.inl h2
      · rintro (h2 | ⟨a, b, ha, hb, rfl⟩)
        · exact Or.inr h2
        · exact Or.inl ⟨a, ha, b, hb, rfl⟩
    · simp only [deriv, h, lang, Language.mem_mul, ihr, ← nullable_iff]
      constructor
      · rintro ⟨a, ha, b, hb, rfl⟩
        exact Or.inr ⟨a, b, ha, hb, rfl⟩
      · rintro (⟨h2, -⟩ | ⟨a, b, ha, hb, rfl⟩)
        · exact absurd h2 (by simp)
        · exact ⟨a, ha, b, hb, rfl⟩
  | star r ih =>
    intro w
    simp only [deriv, lang]
    rw [cons_mem_kstar, Language.mem_mul]
    constructor
    · rintro ⟨a, ha, b, hb, rfl⟩
      exact ⟨a, b, (ih a).mp ha, hb, rfl⟩
    · rintro ⟨a, b, ha, hb, rfl⟩
      exact ⟨a, (ih a).mpr ha, b, hb, rfl⟩

theorem matchChars_iff (w : List Char) : ∀ r : Regex, matchChars r w = true ↔ w ∈ lang r := by
  induction w with
  | nil => intro r; simpa [matchChars] using nullable_iff r
  | cons c w ih => intro r; simp only [matchChars]; rw [ih, deriv_iff]


theorem mem_kstar_cls (p : Char → Bool) :
    ∀ w : List Char, w ∈ KStar.kstar (lang (cls p)) ↔ ∀ c ∈ w, p c = true := by
  intro w
  induction w with
  | nil => simp [Language.nil_mem_kstar]
  | cons c w ih =>
    rw [cons_mem_kstar]
    constructor
    · rintro ⟨a, b, ha, hb, rfl⟩
      rw [mem_lang_cls] at ha
      obtain ⟨x, hx, hcx⟩ := ha
      simp at hcx
      obtain ⟨rfl, rfl⟩ := hcx
      intro d hd
      rcases List.mem_cons.mp hd with rfl | hd
      · exact hx
      · exact (ih.mp hb) d hd
    · intro h
      refine ⟨[], w, ⟨c, h c (List.mem_cons_self _ _), rfl⟩, ?_, rfl⟩
      exact ih.mpr (fun d hd => h d (List.mem_cons_of_mem _ hd))

theorem mem_atLeast_cls (p : Char → Bool) (n : Nat) :
    ∀ w : List Char, w ∈ lang (atLeast n (cls p)) ↔ n ≤ w.length ∧ ∀ c ∈ w, p c = true := by
  induction n with
  | zero =>
    intro w
    show w ∈ KStar.kstar (lang (cls p)) ↔ _
    rw [mem_kstar_cls]; simp
  | succ n ih =>
    intro w
    show w ∈ lang (cls p) * lang (atLeast n (cls p)) ↔ _
    rw [Language.mem_mul]
    constructor
    · rintro ⟨a, ha, b, hb, rfl⟩
      obtain ⟨x, hx, rfl⟩ := (mem_lang_cls p a).mp ha
      obtain ⟨hlen, hall⟩ := (ih b).mp hb
      refine ⟨by simpa using hlen, ?_⟩
      intro d hd
      rcases List.mem_cons.mp hd with rfl | hd
      · exact hx
      · exact hall d hd
    · rintro ⟨hlen, hall⟩
      cases w with
      | nil => simp at hlen
      | cons c w =>
        refine ⟨[c], ⟨c, hall c (List.mem_cons_self _ _), rfl⟩, w, ?_, rfl⟩
        exact (ih w).mpr ⟨by simpa using hlen, fun d hd => hall d (List.mem_cons_of_mem _ hd)⟩

theorem mem_plus_cls (p : Char → Bool) (w : List Char) :
    w ∈ lang (plus (cls p)) ↔ w ≠ [] ∧ ∀ c ∈ w, p c = true := by
  have h := mem_atLeast_cls p 1 w
  simp only [atLeast] at h
  rw [plus, h]
  constructor
  · rintro ⟨hlen, hall⟩
    exact ⟨by rintro rfl; simp at hlen, hall⟩
  · rintro ⟨hne, hall⟩
    exact ⟨List.length_pos.mpr hne, hall⟩

theorem mem_lit (c : Char) (w : List Char) : w ∈ lang (lit c) ↔ w = [c] := by
  rw [lit, mem_lang_cls]
  constructor
  · rintro ⟨x, hx, rfl⟩
    simp at hx
    rw [hx]
  · rintro rfl
    exact ⟨c, by simp, rfl⟩

end Regex

theorem mem_emailRegex (w : List Char) :
    w ∈ Regex.lang emailRegex ↔
      ∃ L D T : List Char, w = L ++ '@' :: (D ++ '.' :: T) ∧
        L ≠ [] ∧ (∀ c ∈ L, isLocalChar c = true) ∧
        D ≠ [] ∧ (∀ c ∈ D, isDomainChar c = true) ∧
        2 ≤ T.length ∧ (∀ c ∈ T, isLetter c = true) := by
  simp only [emailRegex, Regex.lang]
  simp only [Language.mem_mul]
  constructor
  · rintro ⟨L, hL, _, ⟨a, ha, _, ⟨D, hD, _, ⟨d, hd, T, hT, rfl⟩, rfl⟩, rfl⟩, rfl⟩
    have hL2 := (Regex.mem_plus_cls _ L).mp hL
    have hD2 := (Regex.mem_plus_cls _ D).mp hD
    have hT2 := (Regex.mem_atLeast_cls _ 2 T).mp hT
    rw [(Regex.mem_lit _ a).mp ha, (Regex.mem_lit _ d).mp hd]
    exact ⟨L, D, T, by simp, hL2.1, hL2.2, hD2.1, hD2.2, hT2.1, hT2.2⟩
  · rintro ⟨L, D, T, rfl, hL1, hL2, hD1, hD2, hT1, hT2⟩
    refine ⟨L, (Regex.mem_plus_cls _ L).mpr ⟨hL1, hL2⟩, _,
      ⟨['@'], (Regex.mem_lit _ _).mpr rfl, _,
        ⟨D, (Regex.mem_plus_cls _ D).mpr ⟨hD1, hD2⟩, _,
          ⟨['.'], (Regex.mem_lit _ _).mpr rfl, T,
            (Regex.mem_atLeast_cls _ 2 T).mpr ⟨hT1, hT2⟩, rfl⟩, rfl⟩, rfl⟩, by simp⟩

theorem isLetter_iff (c : Char) : isLetter c = true ↔ SpecLetter c := by
  simp only [isLetter, isLower, isUpper, SpecLetter, Char.isAlpha, Char.isUpper, Char.isLower,
    Bool.or_eq_true, Bool.and_eq_true, decide_eq_true_eq, ge_iff_le]
  exact Or.comm

theorem isDigit_iff (c : Char) : isDigit c = true ↔ c.isDigit = true := by
  simp only [isDigit, Char.isDigit, Bool.and_eq_true, decide_eq_true_eq, ge_iff_le]
  exact Iff.rfl

theorem isLocalChar_iff (c : Char) : isLocalChar c = true ↔ SpecLocalChar c := by
  have hl := isLetter_iff c
  have hd := isDigit_iff c
  simp only [isLetter, SpecLetter, Bool.or_eq_true] at hl
  simp only [isLocalChar, SpecLocalChar, Bool.or_eq_true, beq_iff_eq, List.mem_cons,
    List.mem_singleton, hd, ← hl]
  simp only [List.not_mem_nil, or_false, or_assoc]

theorem isDomainChar_iff (c : Char) : isDomainChar c = true ↔ SpecDomainChar c := by
  have hl := isLetter_iff c
  have hd := isDigit_iff c
  simp only [isLetter, SpecLetter, Bool.or_eq_true] at hl
  simp only [isDomainChar, SpecDomainChar, Bool.or_eq_true, beq_iff_eq, List.mem_cons,
    List.mem_singleton, hd, ← hl]
  simp only [List.not_mem_nil, or_false, or_assoc]

theorem emailForm_iff_data (s : String) :
    EmailForm s ↔
      ∃ L D T : List Char, s.data = L ++ '@' :: (D ++ '.' :: T) ∧
        L ≠ [] ∧ (∀ c ∈ L, isLocalChar c = true) ∧
        D ≠ [] ∧ (∀ c ∈ D, isDomainChar c = true) ∧
        2 ≤ T.length ∧ (∀ c ∈ T, isLetter c = true) := by
  constructor
  · rintro ⟨L, D, T, rfl, hL1, hL2, hD1, hD2, hT1, hT2⟩
    refine ⟨L.data, D.data, T.data, ?_, ?_, ?_, ?_, ?_, hT1, ?_⟩
    · simp [String.data_append]
    · intro h; exact hL1 (String.ext h)
    · intro c hc; exact (isLocalChar_iff c).mpr (hL2 c hc)
    · intro h; exact hD1 (String.ext h)
    · intro c hc; exact (isDomainChar_iff c).mpr (hD2 c hc)
    · intro c hc; exact (isLetter_iff c).mpr (hT2 c hc)
  · rintro ⟨L, D, T, hs, hL1, hL2, hD1, hD2, hT1, hT2⟩
    refine ⟨⟨L⟩, ⟨D⟩, ⟨T⟩, ?_, ?_, ?_, ?_, ?_, hT1, ?_⟩
    · apply String.ext
      simp [String.data_append, hs]
    · intro h; exact hL1 (congrArg String.data h)
    · intro c hc; exact (isLocalChar_iff c).mp (hL2 c hc)
    · intro h; exact hD1 (congrArg String.data h)
    · intro c hc; exact (isDomainChar_iff c).mp (hD2 c hc)
    · intro c hc; exact (isLetter_iff c).mp (hT2 c hc)

theorem validate_eq_none_iff (s : String) : Email.Validate s = none ↔ EmailForm s := by
  rw [emailForm_iff_data, ← mem_emailRegex, ← Regex.matchChars_iff]
  unfold Email.Validate Regex.MatchString
  by_cases h1 : s = ""
  · subst h1
    simp only [if_true]
    constructor
    · intro h; cases h
    · intro h; revert h; decide
  · by_cases h2 : Regex.matchChars emailRegex s.data = true
    · simp [h1, h2]
    · simp [h1, h2]

theorem validate_cases (s : String) :
    Email.Validate s = none ∨ Email.Validate s = some (.sentinel .ErrInvalidEmail) := by
  unfold Email.Validate
  by_cases h1 : s = ""
  · simp [h1]
  · by_cases h2 : Regex.MatchString emailRegex s = true
    · simp [h1, h2]
    · simp [h1, h2]

/-- C1. `Email.Validate` returns nil exactly for the strings of the form
`L@D.T` (non-empty local part over letters, digits and `._%+-`, non-empty domain
over letters, digits and `.-`, top-level label of at least two letters, nothing
before or after); every other string, the empty one included, gets
`ErrInvalidEmail`. -/
theorem Email_Validate_accepts_exactly_the_form (s : String) :
    (Email.Validate s = none ↔ EmailForm s) ∧
    (Email.Validate s = some (.sentinel .ErrInvalidEmail) ↔ ¬ EmailForm s) ∧
    Email.Validate "" = some (.sentinel .ErrInvalidEmail) ∧
    Email.Validate "test@example.com\n" = some (.sentinel .ErrInvalidEmail) := by
  refine ⟨validate_eq_none_iff s, ?_, by decide, by decide⟩
  rw [← validate_eq_none_iff]
  rcases validate_cases s with h | h <;> simp [h]

theorem dotLabels_ne_nil (w : List Char) : dotLabels w ≠ [] := by
  cases w with
  | nil => simp [dotLabels]
  | cons c w =>
    by_cases h : c = '.'
    · simp [dotLabels, h]
    · simp only [dotLabels, h, if_false]
      cases dotLabels w <;> simp

theorem dotLabels_append_dot (D T : List Char) :
    dotLabels (D ++ '.' :: T) = dotLabels D ++ dotLabels T := by
  induction D with
  | nil => simp [dotLabels]
  | cons c D ih =>
    by_cases h : c = '.'
    · simp [dotLabels, h, ih]
    · simp only [List.cons_append, dotLabels, h, if_false]
      have ih2 : dotLabels (D.append ('.' :: T)) = dotLabels D ++ dotLabels T := ih
      rw [ih2]
      cases hD : dotLabels D with
      | nil => exact absurd hD (dotLabels_ne_nil D)
      | cons l ls => simp

theorem dotLabels_of_no_dot (T : List Char) (h : '.' ∉ T) : dotLabels T = [T] := by
  induction T with
  | nil => simp [dotLabels]
  | cons c T ih =>
    have hc : c ≠ '.' := fun hc => h (hc ▸ List.mem_cons_self _ _)
    have hT : '.' ∉ T := fun hT => h (List.mem_cons_of_mem _ hT)
    simp [dotLabels, hc, ih hT]

theorem dropWhile_ne_at (L R : List Char) (h : '@' ∉ L) :
    (L ++ '@' :: R).dropWhile (fun c => c != '@') = '@' :: R := by
  induction L with
  | nil => simp [List.dropWhile]
  | cons c L ih =>
    have hc : c ≠ '@' := fun hc => h (hc ▸ List.mem_cons_self _ _)
    have hL : '@' ∉ L := fun hL => h (List.mem_cons_of_mem _ hL)
    have hb : (c != '@') = true := by simpa using hc
    simp only [List.cons_append, List.dropWhile, hb]
    exact ih hL

/-- What acceptance gives: an `@` occurs, and the last dot-separated label of the
domain part has at least two characters. -/
theorem accepted_has_at_and_long_last_label (s : String) (h : Email.Validate s = none) :
    '@' ∈ s.data ∧ ∃ T, (dotLabels (domainPart s)).getLast? = some T ∧ 2 ≤ T.length := by
  obtain ⟨L, D, T, hs, -, hL, -, -, hT1, hT2⟩ := (emailForm_iff_data s).mp ((validate_eq_none_iff s).mp h)
  have hatL : '@' ∉ L := fun hm => by
    have := hL _ hm
    revert this; decide
  have hdotT : '.' ∉ T := fun hm => by
    have := hT2 _ hm
    revert this; decide
  refine ⟨by rw [hs]; simp, T, ?_, hT1⟩
  rw [domainPart, hs, dropWhile_ne_at L _ hatL]
  simp [dotLabels_append_dot, dotLabels_of_no_dot T hdotT]

/-- C2 (as stated, refuted): "a@b.cc" is accepted although the label `b` of its
domain part `b.cc` has fewer than two characters. -/
theorem short_domain_label_is_accepted :
    '@' ∈ ("a@b.cc" : String).data ∧
    (∃ l ∈ dotLabels (domainPart "a@b.cc"), l.length < 2) ∧
    Email.Validate "a@b.cc" = none := by
  refine ⟨by decide, ⟨['b'], by decide, by decide⟩, by decide⟩

/-- C2 (amended). A string with no `@`, and a string whose last dot-separated
label of the domain part (the top-level label) has fewer than two characters,
is rejected with `ErrInvalidEmail`. -/
theorem Email_Validate_rejects_no_at_or_short_top_label (s : String)
    (h : '@' ∉ s.data ∨ ∃ l, (dotLabels (domainPart s)).getLast? = some l ∧ l.length < 2) :
    Email.Validate s = some (.sentinel .ErrInvalidEmail) := by
  rcases validate_cases s with hv | hv
  · obtain ⟨hat, T, hT, hlen⟩ := accepted_has_at_and_long_last_label s hv
    rcases h with h | ⟨l, hl, hlt⟩
    · exact absurd hat h
    · rw [hT] at hl
      cases hl
      omega
  · exact hv

theorem Email_Validate_rejects_witness :
    Email.Validate "testexample.com" = some (.sentinel .ErrInvalidEmail) ∧
    Email.Validate "a@b.c" = some (.sentinel .ErrInvalidEmail) :=
  ⟨Email_Validate_rejects_no_at_or_short_top_label "testexample.com" (Or.inl (by decide)),
   Email_Validate_rejects_no_at_or_short_top_label "a@b.c" (Or.inr ⟨['c'], by decide, by decide⟩)⟩

/-! ## Entity construction and update -/

theorem validate_invalid (s : String) (h : Email.Validate s ≠ none) :
    Email.Validate s = some (.sentinel .ErrInvalidEmail) := by
  rcases validate_cases s with hv | hv
  · exact absurd hv h
  · exact hv

theorem newUser_of_invalid (now : Time) (email name : String) (h : Email.Validate email ≠ none) :
    NewUser now email name =
      (none, some (.wrapf "email validation failed" (.sentinel .ErrInvalidEmail))) := by
  simp [NewUser, validate_invalid email h]

theorem newUser_of_empty (now : Time) (email : String) (h : Email.Validate email = none) :
    NewUser now email "" = (none, some (.sentinel .ErrEmptyName)) := by
  simp [NewUser, h]

theorem newUser_of_valid (now : Time) (email name : String) (h : Email.Validate email = none)
    (hn : name ≠ "") :
    NewUser now email name =
      (some
        { ID := "user_" ++ toString (Time.UnixNano now)
          Email := email
          Name := name
          CreatedAt := now
          UpdatedAt := now },
       none) := by
  simp [NewUser, h, hn]

theorem update_of_invalid (u : User) (now : Time) (email name : String)
    (h : Email.Validate email ≠ none) :
    u.Update now email name =
      (some (.wrapf "email validation failed" (.sentinel .ErrInvalidEmail)), u) := by
  simp [User.Update, validate_invalid email h]

theorem update_of_empty (u : User) (now : Time) (email : String)
    (h : Email.Validate email = none) :
    u.Update now email "" = (some (.sentinel .ErrEmptyName), u) := by
  simp [User.Update, h]

theorem update_of_valid (u : User) (now : Time) (email name : String)
    (h : Email.Validate email = none) (hn : name ≠ "") :
    u.Update now email name =
      (none, { u with Email := email, Name := name, UpdatedAt := now }) := by
  simp [User.Update, h, hn]

theorem update_keeps_valid (u : User) (now : Time) (email name : String)
    (h : u.Validate = none) : (u.Update now email name).2.Validate = none := by
  by_cases hv : Email.Validate email = none
  · by_cases hn : name = ""
    · subst hn; rw [update_of_empty u now email hv]; exact h
    · rw [update_of_valid u now email name hv hn]
      simp [User.Validate, hv, hn]
  · rw [update_of_invalid u now email name hv]; exact h

theorem applyUpdates_keeps_valid (calls : List (Time × String × String)) :
    ∀ u : User, u.Validate = none → (applyUpdates u calls).Validate = none := by
  induction calls with
  | nil => intro u h; exact h
  | cons c rest ih =>
    intro u h
    obtain ⟨now, email, name⟩ := c
    exact ih _ (update_keeps_valid u now email name h)

/-- C3. `NewUser` returns a user and no error exactly when the email validates
and the name is not empty; otherwise it returns no user and the first error met,
the email being checked first: a wrapper of `ErrInvalidEmail` for an invalid email
whatever the name, and `ErrEmptyName` itself for a valid email with the empty
name. Names made of white space only are accepted. -/
theorem NewUser_succeeds_iff_valid_email_and_name (now : Time) (email name : String) :
    ((∃ u, NewUser now email name = (some u, none)) ↔
        (Email.Validate email = none ∧ name ≠ "")) ∧
    ((∃ u, NewUser now email name = (some u, none)) ∨
        (∃ e, NewUser now email name = (none, some e))) ∧
    (Email.Validate email ≠ none →
        ∃ e, NewUser now email name = (none, some e) ∧ NewUser now email "" = (none, some e) ∧
          e.Is .ErrInvalidEmail = true ∧ e ≠ .sentinel .ErrInvalidEmail ∧
          e.Error = "email validation failed: invalid email format") ∧
    (Email.Validate email = none →
        NewUser now email "" = (none, some (.sentinel .ErrEmptyName))) ∧
    (Email.Validate email = none → name ≠ "" → (∀ c ∈ name.data, c.isWhitespace = true) →
        ∃ u, NewUser now email name = (some u, none)) := by
  refine ⟨?_, ?_, ?_, ?_, ?_⟩
  · constructor
    · rintro ⟨u, hu⟩
      by_cases hv : Email.Validate email = none
      · refine ⟨hv, ?_⟩
        rintro rfl
        rw [newUser_of_empty now email hv] at hu
        cases hu
      · rw [newUser_of_invalid now email name hv] at hu
        cases hu
    · rintro ⟨hv, hn⟩
      exact ⟨_, newUser_of_valid now email name hv hn⟩
  · by_cases hv : Email.Validate email = none
    · by_cases hn : name = ""
      · subst hn; exact Or.inr ⟨_, newUser_of_empty now email hv⟩
      · exact Or.inl ⟨_, newUser_of_valid now email name hv hn⟩
    · exact Or.inr ⟨_, newUser_of_invalid now email name hv⟩
  · intro hv
    exact ⟨_, newUser_of_invalid now email name hv, newUser_of_invalid now email "" hv,
      by decide, by decide, by decide⟩
  · intro hv
    exact newUser_of_empty now email hv
  · intro hv hn _
    exact ⟨_, newUser_of_valid now email name hv hn⟩

theorem NewUser_witness :
    (∃ e, NewUser 0 "invalid-email" "Test User" = (none, some e) ∧
          NewUser 0 "invalid-email" "" = (none, some e) ∧
          e.Is .ErrInvalidEmail = true ∧ e ≠ .sentinel .ErrInvalidEmail ∧
          e.Error = "email validation failed: invalid email format") ∧
    NewUser 0 "test@example.com" "" = (none, some (.sentinel .ErrEmptyName)) ∧
    (∃ u, NewUser 0 "test@example.com" " " = (some u, none)) :=
  ⟨(NewUser_succeeds_iff_valid_email_and_name 0 "invalid-email" "Test User").2.2.1 (by decide),
   (NewUser_succeeds_iff_valid_email_and_name 0 "test@example.com" " ").2.2.2.1 (by decide),
   (NewUser_succeeds_iff_valid_email_and_name 0 "test@example.com" " ").2.2.2.2
      (by decide) (by decide) (by decide)⟩

/-- C4. A user is never invalid: `NewUser` on an email of the pattern and a
non-empty name succeeds with a user that passes `User.Validate`; a user that
passes `User.Validate` still passes it after `Update`, whether the call succeeded
or failed; hence so does every user obtained from `NewUser` followed by any
sequence of `Update` calls. -/
theorem User_is_never_invalid :
    (∀ (now : Time) (email name : String), EmailForm email → name ≠ "" →
        ∃ u, NewUser now email name = (some u, none) ∧ u.Validate = none) ∧
    (∀ (u : User) (now : Time) (email name : String), u.Validate = none →
        (u.Update now email name).2.Validate = none) ∧
    (∀ (now : Time) (email name : String) (u : User), NewUser now email name = (some u, none) →
        ∀ calls : List (Time × String × String), (applyUpdates u calls).Validate = none) := by
  have hnew : ∀ (now : Time) (email name : String), Email.Validate email = none → name ≠ "" →
      ∃ u, NewUser now email name = (some u, none) ∧ u.Validate = none := by
    intro now email name hv hn
    refine ⟨_, newUser_of_valid now email name hv hn, ?_⟩
    simp [User.Validate, hv, hn]
  refine ⟨fun now email name hf hn => hnew now email name ((validate_eq_none_iff email).mpr hf) hn,
    update_keeps_valid, ?_⟩
  intro now email name u hu calls
  apply applyUpdates_keeps_valid
  by_cases hv : Email.Validate email = none
  · by_cases hn : name = ""
    · subst hn
      rw [newUser_of_empty now email hv] at hu
      cases hu
    · obtain ⟨u', hu', hval⟩ := hnew now email name hv hn
      rw [hu'] at hu
      cases hu
      exact hval
  · rw [newUser_of_invalid now email name hv] at hu
    cases hu

theorem User_is_never_invalid_witness :
    (∃ u, NewUser 0 "test@example.com" "Test User" = (some u, none) ∧ u.Validate = none) ∧
    (∀ u, NewUser 0 "test@example.com" "Test User" = (some u, none) →
      (applyUpdates u [(1, "bad", "x"), (2, "new@example.com", "New Name"),
        (3, "new@example.com", "")]).Validate = none) :=
  ⟨User_is_never_invalid.1 0 "test@example.com" "Test User"
      ((validate_eq_none_iff _).mp (by decide)) (by decide),
   fun u hu => User_is_never_invalid.2.2 0 "test@example.com" "Test User" u hu _⟩

/-- C7. `Update` fails exactly when the email does not validate or the name is
empty, with a wrapper of `ErrInvalidEmail` in the first case and `ErrEmptyName`
otherwise; after a failed call every field of the user is what it was. -/
theorem User_Update_fails_iff_and_leaves_user (u : User) (now : Time) (email name : String) :
    ((u.Update now email name).1 ≠ none ↔ (Email.Validate email ≠ none ∨ name = "")) ∧
    (Email.Validate email ≠ none →
        ∃ e, (u.Update now email name).1 = some e ∧ e.Is .ErrInvalidEmail = true ∧
          e ≠ .sentinel .ErrInvalidEmail) ∧
    (Email.Validate email = none → name = "" →
        (u.Update now email name).1 = some (.sentinel .ErrEmptyName)) ∧
    ((u.Update now email name).1 ≠ none →
        (u.Update now email name).2 = u ∧
        (u.Update now email name).2.ID = u.ID ∧
        (u.Update now email name).2.Email = u.Email ∧
        (u.Update now email name).2.Name = u.Name ∧
        (u.Update now email name).2.CreatedAt = u.CreatedAt ∧
        (u.Update now email name).2.UpdatedAt = u.UpdatedAt) := by
  by_cases hv : Email.Validate email = none
  · by_cases hn : name = ""
    · subst hn
      simp [update_of_empty u now email hv, hv]
    · simp [update_of_valid u now email name hv hn, hv, hn]
  · simp [update_of_invalid u now email name hv, hv, GoError.Is]

theorem User_Update_fails_witness :
    (User.Update ⟨"user_1", "test@example.com", "Test User", 1, 1⟩ 2 "bad" "x").2 =
      ⟨"user_1", "test@example.com", "Test User", 1, 1⟩ :=
  ((User_Update_fails_iff_and_leaves_user ⟨"user_1", "test@example.com", "Test User", 1, 1⟩
      2 "bad" "x").2.2.2 (by decide)).1

/-- C8. `Update` with an email that validates and a non-empty name succeeds and
sets `Email`, `Name` and `UpdatedAt` (to the clock reading of the call, later than
the old value whenever the clock has advanced); `ID` and `CreatedAt` keep their
values. -/
theorem User_Update_succeeds_and_frames (u : User) (now : Time) (email name : String)
    (hv : Email.Validate email = none) (hn : name ≠ "") :
    ∃ u', u.Update now email name = (none, u') ∧
      u'.Email = email ∧ u'.Name = name ∧ u'.UpdatedAt = now ∧
      (u.UpdatedAt < now → u.UpdatedAt < u'.UpdatedAt ∧ u'.UpdatedAt ≠ u.UpdatedAt) ∧
      u'.ID = u.ID ∧ u'.CreatedAt = u.CreatedAt := by
  refine ⟨_, update_of_valid u now email name hv hn, rfl, rfl, rfl, ?_, rfl, rfl⟩
  intro hlt
  exact ⟨hlt, ne_of_gt hlt⟩

theorem User_Update_succeeds_witness :
    ∃ u', User.Update ⟨"user_1", "test@example.com", "Test User", 1, 1⟩ 2
        "new@example.com" "New Name" = (none, u') ∧
      u'.Email = "new@example.com" ∧ u'.Name = "New Name" ∧ u'.UpdatedAt = 2 ∧
      ((1 : Int) < 2 → (1 : Int) < u'.UpdatedAt ∧ u'.UpdatedAt ≠ 1) ∧
      u'.ID = "user_1" ∧ u'.CreatedAt = 1 :=
  User_Update_succeeds_and_frames ⟨"user_1", "test@example.com", "Test User", 1, 1⟩ 2
    "new@example.com" "New Name" (by decide) (by decide)

/-! ## Repository and service -/

namespace MockUserRepository

theorem findByEmail_none (m : MockUserRepository) (email : Email)
    (h : ∀ id u, m.users id = some u → u.Email ≠ email) :
    ∀ order : List UserID, m.FindByEmail order email = (none, some (.sentinel .ErrUserNotFound)) := by
  intro order
  induction order with
  | nil => rfl
  | cons id rest ih =>
    cases hu : m.users id with
    | none => simp [FindByEmail, hu, ih]
    | some u => simp [FindByEmail, hu, ih, h id u hu]

theorem findByEmail_found (m : MockUserRepository) (email : Email) :
    ∀ order : List UserID, (∃ id ∈ order, ∃ u, m.users id = some u ∧ u.Email = email) →
      ∃ id ∈ order, ∃ u, m.users id = some u ∧ u.Email = email ∧
        m.FindByEmail order email = (some u, none) := by
  intro order
  induction order with
  | nil => rintro ⟨id, hid, -⟩; cases hid
  | cons k rest ih =>
    rintro ⟨id, hid, u, hu, he⟩
    cases hk : m.users k with
    | none =>
      have hne : id ≠ k := by rintro rfl; rw [hk] at hu; cases hu
      have hid2 : id ∈ rest := by
        rcases List.mem_cons.mp hid with h | h
        · exact absurd h hne
        · exact h
      obtain ⟨id', hid', u', hu', he', hf⟩ := ih ⟨id, hid2, u, hu, he⟩
      exact ⟨id', List.mem_cons_of_mem _ hid', u', hu', he', by simp [FindByEmail, hk, hf]⟩
    | some v =>
      by_cases hv : v.Email = email
      · exact ⟨k, List.mem_cons_self _ _, v, hk, hv, by simp [FindByEmail, hk, hv]⟩
      · have hne : id ≠ k := by
          rintro rfl; rw [hk] at hu; cases hu; exact hv he
        have hid2 : id ∈ rest := by
          rcases List.mem_cons.mp hid with h | h
          · exact absurd h hne
          · exact h
        obtain ⟨id', hid', u', hu', he', hf⟩ := ih ⟨id, hid2, u, hu, he⟩
        exact ⟨id', List.mem_cons_of_mem _ hid', u', hu', he', by simp [FindByEmail, hk, hv, hf]⟩

theorem put_same (m : MockUserRepository) (id : UserID) (u : User) (h : m.users id = some u) :
    m.put id u = m := by
  cases m with
  | mk users =>
    simp only [put, mk.injEq]
    funext k
    by_cases hk : k = id
    · subst hk; simp [h.symm]
    · simp [hk]

end MockUserRepository

open MockUserRepository

/-- C5. When the repository holds a user with the given email, `CreateUser`
returns no user and `ErrUserAlreadyExists` itself, whatever the name and the
clock, and the store is unchanged; so a `CreateUser` that follows a successful
one with the same email fails with `ErrUserAlreadyExists`. -/
theorem CreateUser_rejects_existing_email :
    (∀ (s : UserService) (order : List UserID) (now : Time) (email name : String),
        s.repo.RangeOrder order →
        (∃ id u, s.repo.users id = some u ∧ u.Email = email) →
        s.CreateUser order now email name =
          ((none, some (.sentinel .ErrUserAlreadyExists)), s)) ∧
    (∀ (s0 : UserService) (order0 : List UserID) (now0 : Time) (e n : String) (u : User)
        (s1 : UserService),
        s0.CreateUser order0 now0 e n = ((some u, none), s1) →
        ∀ (order1 : List UserID) (now1 : Time) (n' : String), s1.repo.RangeOrder order1 →
          s1.CreateUser order1 now1 e n' =
            ((none, some (.sentinel .ErrUserAlreadyExists)), s1)) := by
  have part1 : ∀ (s : UserService) (order : List UserID) (now : Time) (email name : String),
      s.repo.RangeOrder order →
      (∃ id u, s.repo.users id = some u ∧ u.Email = email) →
      s.CreateUser order now email name =
        ((none, some (.sentinel .ErrUserAlreadyExists)), s) := by
    intro s order now email name horder ⟨id, u, hu, he⟩
    have hmem : id ∈ order := (horder.2 id).mpr (by simp [hu])
    obtain ⟨id', -, u', -, -, hf⟩ := findByEmail_found s.repo email order ⟨id, hmem, u, hu, he⟩
    simp [UserService.CreateUser, hf]
  refine ⟨part1, ?_⟩
  intro s0 order0 now0 e n u s1 hcreate order1 now1 n' horder1
  apply part1 s1 order1 now1 e n' horder1
  -- the successful call stored `u`, whose email is `e`, under `u.ID`
  unfold UserService.CreateUser at hcreate
  split at hcreate
  · cases hcreate
  · by_cases hv : Email.Validate e = none
    · by_cases hn : n = ""
      · subst hn
        rw [newUser_of_empty now0 e hv] at hcreate
        cases hcreate
      · rw [newUser_of_valid now0 e n hv hn] at hcreate
        simp only [Save] at hcreate
        cases hcreate
        refine ⟨"user_" ++ toString (Time.UnixNano now0),
          ⟨"user_" ++ toString (Time.UnixNano now0), e, n, now0, now0⟩, ?_, rfl⟩
        simp [put]
    · rw [newUser_of_invalid now0 e n hv] at hcreate
      cases hcreate


theorem rangeOrder_sampleService : sampleService.repo.RangeOrder ["user_1"] := by
  refine ⟨by simp, ?_⟩
  intro id
  by_cases h : id = "user_1"
  · simp [h, sampleService, put]
  · simp [h, sampleService, put, NewMockUserRepository]

theorem CreateUser_rejects_existing_email_witness :
    sampleService.CreateUser ["user_1"] 5 "test@example.com" "Another Name" =
      ((none, some (.sentinel .ErrUserAlreadyExists)), sampleService) ∧
    sampleService.CreateUser ["user_1"] 6 "test@example.com" "" =
      ((none, some (.sentinel .ErrUserAlreadyExists)), sampleService) :=
  ⟨CreateUser_rejects_existing_email.1 sampleService ["user_1"] 5 "test@example.com"
      "Another Name" rangeOrder_sampleService ⟨"user_1", sampleUser, by decide, by decide⟩,
   CreateUser_rejects_existing_email.2 ⟨NewMockUserRepository⟩ [] 1 "test@example.com"
      "Test User" sampleUser sampleService (by rfl) ["user_1"] 6 "" rangeOrder_sampleService⟩

theorem userID_ne_empty (n : Int) : ("user_" ++ toString n : String) ≠ "" := by
  intro h
  have := congrArg String.length h
  simp only [String.length_append] at this
  have h5 : ("user_" : String).length = 5 := by decide
  have h0 : ("" : String).length = 0 := by decide
  omega

/-- C6. When no stored user has the given email, `CreateUser` with an email that
validates and a non-empty name succeeds: the returned user has that email, that
name and a non-empty `ID`, the store then maps its `ID` to it, and both
`GetUserByID` on its `ID` and `GetUserByEmail` on the email return it. -/
theorem CreateUser_succeeds_and_stores (s : UserService) (order : List UserID) (now : Time)
    (email name : String)
    (hfree : ∀ id u, s.repo.users id = some u → u.Email ≠ email)
    (hv : Email.Validate email = none) (hn : name ≠ "") :
    ∃ u s', s.CreateUser order now email name = ((some u, none), s') ∧
      u.Email = email ∧ u.Name = name ∧ u.ID ≠ "" ∧
      s'.repo.users u.ID = some u ∧
      s'.GetUserByID u.ID = (some u, none) ∧
      ∀ order', s'.repo.RangeOrder order' → s'.GetUserByEmail order' email = (some u, none) := by
  have hfind := findByEmail_none s.repo email hfree order
  have hstored : (s.repo.put ("user_" ++ toString (Time.UnixNano now))
      ⟨"user_" ++ toString (Time.UnixNano now), email, name, now, now⟩).users
        ("user_" ++ toString (Time.UnixNano now)) =
      some ⟨"user_" ++ toString (Time.UnixNano now), email, name, now, now⟩ := by
    simp [put]
  refine ⟨⟨"user_" ++ toString (Time.UnixNano now), email, name, now, now⟩,
    ⟨s.repo.put ("user_" ++ toString (Time.UnixNano now))
      ⟨"user_" ++ toString (Time.UnixNano now), email, name, now, now⟩⟩,
    ?_, rfl, rfl, userID_ne_empty _, hstored, ?_, ?_⟩
  · simp [UserService.CreateUser, hfind, newUser_of_valid now email name hv hn, Save]
  · simp [UserService.GetUserByID, FindByID, hstored]
  · intro order' horder'
    have hmem : ("user_" ++ toString (Time.UnixNano now) : String) ∈ order' :=
      (horder'.2 _).mpr (by simp [hstored])
    obtain ⟨id', -, u', hu', he', hf⟩ :=
      findByEmail_found _ email order' ⟨_, hmem, _, hstored, rfl⟩
    have hu'eq : u' = ⟨"user_" ++ toString (Time.UnixNano now), email, name, now, now⟩ := by
      by_cases hid : id' = "user_" ++ toString (Time.UnixNano now)
      · rw [hid, hstored] at hu'
        cases hu'
        rfl
      · have hold : s.repo.users id' = some u' := by simpa [put, hid] using hu'
        exact absurd he' (hfree id' u' hold)
    rw [hu'eq] at hf
    simp [UserService.GetUserByEmail, hf]

theorem CreateUser_succeeds_and_stores_witness :
    ∃ u s', sampleService.CreateUser ["user_1"] 7 "other@example.com" "Other User" =
        ((some u, none), s') ∧
      u.Email = "other@example.com" ∧ u.Name = "Other User" ∧ u.ID ≠ "" ∧
      s'.repo.users u.ID = some u ∧
      s'.GetUserByID u.ID = (some u, none) ∧
      ∀ order', s'.repo.RangeOrder order' →
        s'.GetUserByEmail order' "other@example.com" = (some u, none) :=
  CreateUser_succeeds_and_stores sampleService ["user_1"] 7 "other@example.com" "Other User"
    (by
      intro id u hu
      by_cases h : id = "user_1"
      · subst h
        have : u = sampleUser := by
          simpa [sampleService, put] using hu.symm
        rw [this]; decide
      · simp [sampleService, put, NewMockUserRepository, h] at hu)
    (by decide) (by decide)

/-- C10. For a stored id, the repository `Delete` and the service `DeleteUser`
return nil and yield the store without that id, every other entry unchanged;
afterwards `FindByID` fails with `ErrUserNotFound` and `GetUserByID` with a
wrapper of it whose message is "failed to get user by ID: user not found". -/
theorem Delete_removes_exactly_the_id (s : UserService) (id : UserID)
    (hstored : (s.repo.users id).isSome = true) :
    ∃ m', s.repo.Delete id = (none, m') ∧ s.DeleteUser id = (none, ⟨m'⟩) ∧
      m'.users id = none ∧ (∀ k, k ≠ id → m'.users k = s.repo.users k) ∧
      m'.FindByID id = (none, some (.sentinel .ErrUserNotFound)) ∧
      ∃ e, UserService.GetUserByID ⟨m'⟩ id = (none, some e) ∧
        e.Is .ErrUserNotFound = true ∧ e ≠ .sentinel .ErrUserNotFound ∧
        e.Error = "failed to get user by ID: user not found" := by
  obtain ⟨u, hu⟩ := Option.isSome_iff_exists.mp hstored
  have hgone : (s.repo.remove id).users id = none := by simp [remove]
  refine ⟨s.repo.remove id, ?_, ?_, hgone, ?_, ?_,
    .wrapf "failed to get user by ID" (.sentinel .ErrUserNotFound), ?_, by decide, by decide,
    by decide⟩
  · simp [Delete, hu]
  · simp [UserService.DeleteUser, FindByID, Delete, hu]
  · intro k hk
    simp [remove, hk]
  · simp [FindByID, hgone]
  · simp [UserService.GetUserByID, FindByID, hgone]

theorem Delete_removes_exactly_the_id_witness :
    ∃ m', sampleService.repo.Delete "user_1" = (none, m') ∧
      sampleService.DeleteUser "user_1" = (none, ⟨m'⟩) ∧
      m'.users "user_1" = none ∧ (∀ k, k ≠ "user_1" → m'.users k = sampleService.repo.users k) ∧
      m'.FindByID "user_1" = (none, some (.sentinel .ErrUserNotFound)) ∧
      ∃ e, UserService.GetUserByID ⟨m'⟩ "user_1" = (none, some e) ∧
        e.Is .ErrUserNotFound = true ∧ e ≠ .sentinel .ErrUserNotFound ∧
        e.Error = "failed to get user by ID: user not found" :=
  Delete_removes_exactly_the_id sampleService "user_1" (by decide)

/-! ## The decimal numeral of an identifier -/

theorem digitChar_value (d : Nat) (h : d < 10) : (Nat.digitChar d).toNat - 48 = d := by
  interval_cases d <;> decide

theorem digitChar_ne_minus (d : Nat) (h : d < 10) : Nat.digitChar d ≠ '-' := by
  interval_cases d <;> decide

theorem toDigitsCore_append (fuel : Nat) :
    ∀ (n : Nat) (ds : List Char),
      Nat.toDigitsCore 10 fuel n ds = Nat.toDigitsCore 10 fuel n [] ++ ds := by
  induction fuel with
  | zero => intro n ds; simp [Nat.toDigitsCore]
  | succ fuel ih =>
    intro n ds
    simp only [Nat.toDigitsCore]
    by_cases h : n / 10 = 0
    · simp [h]
    · simp only [h, if_false]
      rw [ih (n / 10) (Nat.digitChar (n % 10) :: ds), ih (n / 10) [Nat.digitChar (n % 10)]]
      simp

theorem decodeDigits_snoc (ds : List Char) (c : Char) :
    decodeDigits (ds ++ [c]) = 10 * decodeDigits ds + (c.toNat - 48) := by
  simp [decodeDigits, List.foldl_append]

theorem decodeDigits_toDigitsCore (fuel : Nat) :
    ∀ n : Nat, n < fuel → decodeDigits (Nat.toDigitsCore 10 fuel n []) = n := by
  induction fuel with
  | zero => intro n h; omega
  | succ fuel ih =>
    intro n hn
    have hd : n % 10 < 10 := Nat.mod_lt _ (by decide)
    simp only [Nat.toDigitsCore]
    by_cases h : n / 10 = 0
    · simp only [h, if_true]
      have := decodeDigits_snoc [] (Nat.digitChar (n % 10))
      simp only [List.nil_append] at this
      rw [this, digitChar_value _ hd]
      simp only [decodeDigits, List.foldl_nil]
      omega
    · simp only [h, if_false]
      rw [toDigitsCore_append, decodeDigits_snoc, digitChar_value _ hd, ih (n / 10) (by omega)]
      omega

theorem mem_toDigitsCore (fuel : Nat) :
    ∀ (n : Nat) (ds : List Char) (c : Char), c ∈ Nat.toDigitsCore 10 fuel n ds →
      c ∈ ds ∨ ∃ d, d < 10 ∧ c = Nat.digitChar d := by
  induction fuel with
  | zero => intro n ds c hc; exact Or.inl (by simpa [Nat.toDigitsCore] using hc)
  | succ fuel ih =>
    intro n ds c hc
    have hd : n % 10 < 10 := Nat.mod_lt _ (by decide)
    simp only [Nat.toDigitsCore] at hc
    by_cases h : n / 10 = 0
    · simp only [h, if_true] at hc
      rcases List.mem_cons.mp hc with rfl | hc
      · exact Or.inr ⟨_, hd, rfl⟩
      · exact Or.inl hc
    · simp only [h, if_false] at hc
      rcases ih _ _ _ hc with hc | hc
      · rcases List.mem_cons.mp hc with rfl | hc
        · exact Or.inr ⟨_, hd, rfl⟩
        · exact Or.inl hc
      · exact Or.inr hc

theorem natRepr_data (n : Nat) : (toString n).data = Nat.toDigits 10 n := rfl

theorem natRepr_injective (a b : Nat) (h : toString a = toString b) : a = b := by
  have hd : Nat.toDigits 10 a = Nat.toDigits 10 b := by
    rw [← natRepr_data, ← natRepr_data, h]
  have ha := decodeDigits_toDigitsCore (a + 1) a (by omega)
  have hb := decodeDigits_toDigitsCore (b + 1) b (by omega)
  unfold Nat.toDigits at hd
  rw [hd] at ha
  omega

theorem minus_not_in_natRepr (n : Nat) : '-' ∉ (toString n).data := by
  intro hm
  rw [natRepr_data] at hm
  rcases mem_toDigitsCore _ _ _ _ hm with h | ⟨d, hd, h⟩
  · cases h
  · exact digitChar_ne_minus d hd h.symm

theorem intRepr_ofNat (n : Nat) : toString (Int.ofNat n) = toString n := rfl

theorem intRepr_negSucc (n : Nat) : toString (Int.negSucc n) = "-" ++ toString (n + 1) := rfl

theorem intRepr_injective (a b : Int) (h : toString a = toString b) : a = b := by
  cases a with
  | ofNat a =>
    cases b with
    | ofNat b =>
      rw [intRepr_ofNat, intRepr_ofNat] at h
      rw [natRepr_injective a b h]
    | negSucc b =>
      rw [intRepr_ofNat, intRepr_negSucc] at h
      have hm : '-' ∈ (toString a).data := by rw [h]; simp [String.data_append]
      exact absurd hm (minus_not_in_natRepr a)
  | negSucc a =>
    cases b with
    | ofNat b =>
      rw [intRepr_ofNat, intRepr_negSucc] at h
      have hm : '-' ∈ (toString b).data := by rw [← h]; simp [String.data_append]
      exact absurd hm (minus_not_in_natRepr b)
    | negSucc b =>
      rw [intRepr_negSucc, intRepr_negSucc] at h
      have hd := congrArg String.data h
      simp only [String.data_append, List.append_cancel_left_eq] at hd
      have := natRepr_injective (a + 1) (b + 1) (String.ext hd)
      have hab : a = b := by omega
      rw [hab]

theorem userID_injective (a b : Int)
    (h : ("user_" ++ toString a : String) = "user_" ++ toString b) : a = b := by
  have hd := congrArg String.data h
  simp only [String.data_append, List.append_cancel_left_eq] at hd
  exact intRepr_injective a b (String.ext hd)

theorem unixNano_of_int64 (t : Int) (hlo : -(2 ^ 63) ≤ t) (hhi : t < 2 ^ 63) :
    Time.UnixNano t = t := by
  unfold Time.UnixNano
  have h : (t + 2 ^ 63) % 2 ^ 64 = t + 2 ^ 63 :=
    Int.emod_eq_of_lt (by omega) (by omega)
  rw [h]
  omega

theorem unixNano_is_int64 (t : Int) :
    -(2 ^ 63) ≤ Time.UnixNano t ∧ Time.UnixNano t < 2 ^ 63 := by
  unfold Time.UnixNano
  have h1 : 0 ≤ (t + 2 ^ 63) % 2 ^ 64 := Int.emod_nonneg _ (by norm_num)
  have h2 : (t + 2 ^ 63) % 2 ^ 64 < 2 ^ 64 := Int.emod_lt_of_pos _ (by norm_num)
  constructor <;> omega

open MockUserRepository

/-! ## Repository contract -/

theorem findByEmail_cases (m : MockUserRepository) (email : Email) :
    ∀ order : List UserID,
      m.FindByEmail order email = (none, some (.sentinel .ErrUserNotFound)) ∨
      ∃ id ∈ order, ∃ u, m.users id = some u ∧ u.Email = email ∧
        m.FindByEmail order email = (some u, none) := by
  intro order
  induction order with
  | nil => exact Or.inl rfl
  | cons k rest ih =>
    cases hk : m.users k with
    | none =>
      rcases ih with h | ⟨id, hid, u, hu, he, hf⟩
      · exact Or.inl (by simp [FindByEmail, hk, h])
      · exact Or.inr ⟨id, List.mem_cons_of_mem _ hid, u, hu, he, by simp [FindByEmail, hk, hf]⟩
    | some v =>
      by_cases hv : v.Email = email
      · exact Or.inr ⟨k, List.mem_cons_self _ _, v, hk, hv, by simp [FindByEmail, hk, hv]⟩
      · rcases ih with h | ⟨id, hid, u, hu, he, hf⟩
        · exact Or.inl (by simp [FindByEmail, hk, hv, h])
        · exact Or.inr ⟨id, List.mem_cons_of_mem _ hid, u, hu, he,
            by simp [FindByEmail, hk, hv, hf]⟩

theorem rangeOrder_twinRepo_ab : twinRepo.RangeOrder ["a", "b"] := by
  refine ⟨by decide, ?_⟩
  intro id
  by_cases ha : id = "a"
  · subst ha; decide
  · by_cases hb : id = "b"
    · subst hb; decide
    · simp [ha, hb, twinRepo, put, NewMockUserRepository]

theorem rangeOrder_twinRepo_ba : twinRepo.RangeOrder ["b", "a"] := by
  refine ⟨by decide, ?_⟩
  intro id
  by_cases ha : id = "a"
  · subst ha; decide
  · by_cases hb : id = "b"
    · subst hb; decide
    · simp [ha, hb, twinRepo, put, NewMockUserRepository]

/-- C11. `Save` never rejects a non-nil user, also when its `ID` is already a
key (the entry is overwritten); `FindByID` on that `ID` then returns the user,
equal in every field, and the entries under all other ids are unchanged. -/
theorem Save_then_FindByID_returns_the_user (m : MockUserRepository) (u : User) :
    ∃ m', m.Save (some u) = (none, m') ∧
      m'.FindByID u.ID = (some u, none) ∧
      (∃ v, (m'.FindByID u.ID).1 = some v ∧ v.ID = u.ID ∧ v.Email = u.Email ∧
        v.Name = u.Name ∧ v.CreatedAt = u.CreatedAt ∧ v.UpdatedAt = u.UpdatedAt) ∧
      ∀ k, k ≠ u.ID → m'.users k = m.users k := by
  have hput : (m.put u.ID u).users u.ID = some u := by simp [put]
  refine ⟨m.put u.ID u, rfl, by simp [FindByID, hput],
    ⟨u, by simp [FindByID, hput], rfl, rfl, rfl, rfl, rfl⟩, ?_⟩
  intro k hk
  simp [put, hk]

theorem Save_overwrites_witness :
    ∃ m', sampleService.repo.Save (some ⟨"user_1", "other@example.com", "Other", 5, 6⟩) =
        (none, m') ∧
      m'.FindByID "user_1" = (some ⟨"user_1", "other@example.com", "Other", 5, 6⟩, none) :=
  let ⟨m', h1, h2, _⟩ :=
    Save_then_FindByID_returns_the_user sampleService.repo
      ⟨"user_1", "other@example.com", "Other", 5, 6⟩
  ⟨m', h1, h2⟩

/-- C12. On an id that is not stored `FindByID` and `Delete` fail with
`ErrUserNotFound`, as does `Update` with a user whose `ID` is not stored and
`FindByEmail` with an email that no stored user has; the store is the same
afterwards, and `Update` has not inserted the user. -/
theorem absent_gives_ErrUserNotFound (m : MockUserRepository) :
    (∀ id, m.users id = none →
        m.FindByID id = (none, some (.sentinel .ErrUserNotFound)) ∧
        m.Delete id = (some (.sentinel .ErrUserNotFound), m)) ∧
    (∀ u : User, m.users u.ID = none →
        m.Update (some u) = (some (.sentinel .ErrUserNotFound), m) ∧
        (m.Update (some u)).2.users u.ID = none) ∧
    (∀ (order : List UserID) (email : Email),
        (∀ id u, m.users id = some u → u.Email ≠ email) →
        m.FindByEmail order email = (none, some (.sentinel .ErrUserNotFound))) := by
  refine ⟨?_, ?_, ?_⟩
  · intro id h
    simp [FindByID, Delete, h]
  · intro u h
    simp [MockUserRepository.Update, h]
  · intro order email h
    exact findByEmail_none m email h order

theorem absent_gives_ErrUserNotFound_witness :
    (sampleService.repo.FindByID "non-existent-id" =
        (none, some (.sentinel .ErrUserNotFound)) ∧
      sampleService.repo.Delete "non-existent-id" =
        (some (.sentinel .ErrUserNotFound), sampleService.repo)) ∧
    (sampleService.repo.Update (some ⟨"user_2", "second@example.com", "Second", 2, 2⟩) =
        (some (.sentinel .ErrUserNotFound), sampleService.repo) ∧
      (sampleService.repo.Update
        (some ⟨"user_2", "second@example.com", "Second", 2, 2⟩)).2.users "user_2" = none) ∧
    NewMockUserRepository.FindByEmail [] "notfound@example.com" =
      (none, some (.sentinel .ErrUserNotFound)) :=
  ⟨(absent_gives_ErrUserNotFound sampleService.repo).1 "non-existent-id" (by decide),
   (absent_gives_ErrUserNotFound sampleService.repo).2.1
      ⟨"user_2", "second@example.com", "Second", 2, 2⟩ (by decide),
   (absent_gives_ErrUserNotFound NewMockUserRepository).2.2 [] "notfound@example.com"
      (by intro id u h; simp [NewMockUserRepository] at h)⟩

/-- C13. `FindByEmail` succeeds exactly when some stored user has the email; the
user it returns is a stored one with that email, and with no such user it fails
with `ErrUserNotFound`. Which of several matching users is returned depends on
the order in which `range` visits the map. -/
theorem FindByEmail_succeeds_iff_stored (m : MockUserRepository) (order : List UserID)
    (email : Email) (horder : m.RangeOrder order) :
    ((∃ u, m.FindByEmail order email = (some u, none)) ↔
        ∃ id u, m.users id = some u ∧ u.Email = email) ∧
    (∀ u, m.FindByEmail order email = (some u, none) →
        u.Email = email ∧ ∃ id, m.users id = some u) ∧
    ((¬ ∃ id u, m.users id = some u ∧ u.Email = email) →
        m.FindByEmail order email = (none, some (.sentinel .ErrUserNotFound))) ∧
    (∃ u v, u ≠ v ∧ twinRepo.FindByEmail ["a", "b"] "twin@example.com" = (some u, none) ∧
        twinRepo.FindByEmail ["b", "a"] "twin@example.com" = (some v, none)) := by
  refine ⟨⟨?_, ?_⟩, ?_, ?_, ?_⟩
  · rintro ⟨u, hu⟩
    rcases findByEmail_cases m email order with h | ⟨id, -, v, hv, he, hf⟩
    · rw [h] at hu; cases hu
    · exact ⟨id, v, hv, he⟩
  · rintro ⟨id, u, hu, he⟩
    have hmem : id ∈ order := (horder.2 id).mpr (by simp [hu])
    obtain ⟨_, -, v, -, -, hf⟩ := findByEmail_found m email order ⟨id, hmem, u, hu, he⟩
    exact ⟨v, hf⟩
  · intro u hu
    rcases findByEmail_cases m email order with h | ⟨id, -, v, hv, he, hf⟩
    · rw [h] at hu; cases hu
    · rw [hf] at hu
      cases hu
      exact ⟨he, id, hv⟩
  · intro hnone
    apply findByEmail_none m email
    intro id u hu he
    exact hnone ⟨id, u, hu, he⟩
  · exact ⟨⟨"a", "twin@example.com", "First", 1, 1⟩, ⟨"b", "twin@example.com", "Second", 2, 2⟩,
      by decide, by decide, by decide⟩

theorem FindByEmail_succeeds_iff_stored_witness :
    (∃ u, twinRepo.FindByEmail ["b", "a"] "twin@example.com" = (some u, none)) ∧
    twinRepo.FindByEmail ["a", "b"] "notfound@example.com" =
      (none, some (.sentinel .ErrUserNotFound)) :=
  ⟨(FindByEmail_succeeds_iff_stored twinRepo ["b", "a"] "twin@example.com"
      rangeOrder_twinRepo_ba).1.mpr ⟨"a", ⟨"a", "twin@example.com", "First", 1, 1⟩,
        by decide, by decide⟩,
   (FindByEmail_succeeds_iff_stored twinRepo ["a", "b"] "notfound@example.com"
      rangeOrder_twinRepo_ab).2.2.1 (by
        rintro ⟨id, u, hu, he⟩
        by_cases ha : id = "a"
        · subst ha
          have : u = ⟨"a", "twin@example.com", "First", 1, 1⟩ := by
            simpa [twinRepo, put] using hu.symm
          subst this
          revert he; decide
        · by_cases hb : id = "b"
          · subst hb
            have : u = ⟨"b", "twin@example.com", "Second", 2, 2⟩ := by
              simpa [twinRepo, put] using hu.symm
            subst this
            revert he; decide
          · simp [ha, hb, twinRepo, put, NewMockUserRepository] at hu)⟩

/-- C17. `Save` and `Update` called with the nil reference fail with
`ErrInvalidUser` and leave the store as it was; `Update` tests for nil before it
looks the user up, so the error is `ErrInvalidUser` also when nothing is stored. -/
theorem nil_user_gives_ErrInvalidUser (m : MockUserRepository) :
    m.Save none = (some (.sentinel .ErrInvalidUser), m) ∧
    m.Update none = (some (.sentinel .ErrInvalidUser), m) ∧
    (m.Update none).1 ≠ some (.sentinel .ErrUserNotFound) ∧
    (NewMockUserRepository.Update none).1 = some (.sentinel .ErrInvalidUser) := by
  refine ⟨rfl, rfl, ?_, rfl⟩
  simp [MockUserRepository.Update]

open MockUserRepository

/-! ## Errors of the service -/

/-- C14. On an id that is not stored, `GetUserByID`, `UpdateUser` (whatever the
email and name) and `DeleteUser` fail with errors that wrap `ErrUserNotFound` and
read "failed to get user by ID: user not found", "failed to find user for
update: user not found" and "failed to find user for deletion: user not found";
`GetUserByEmail` on an email no stored user has fails with a wrapper of
`ErrUserNotFound` that reads "failed to get user by email: user not found". -/
theorem service_wraps_ErrUserNotFound (s : UserService) :
    (∀ id, s.repo.users id = none →
      (∃ e, s.GetUserByID id = (none, some e) ∧ e.Is .ErrUserNotFound = true ∧
          e ≠ .sentinel .ErrUserNotFound ∧
          e.Error = "failed to get user by ID: user not found") ∧
      (∀ (now : Time) (email name : String),
        ∃ e, s.UpdateUser now id email name = (some e, s) ∧ e.Is .ErrUserNotFound = true ∧
          e ≠ .sentinel .ErrUserNotFound ∧
          e.Error = "failed to find user for update: user not found") ∧
      (∃ e, s.DeleteUser id = (some e, s) ∧ e.Is .ErrUserNotFound = true ∧
          e ≠ .sentinel .ErrUserNotFound ∧
          e.Error = "failed to find user for deletion: user not found")) ∧
    (∀ (order : List UserID) (email : String),
      (∀ id u, s.repo.users id = some u → u.Email ≠ email) →
      ∃ e, s.GetUserByEmail order email = (none, some e) ∧ e.Is .ErrUserNotFound = true ∧
        e ≠ .sentinel .ErrUserNotFound ∧
        e.Error = "failed to get user by email: user not found") := by
  constructor
  · intro id h
    refine ⟨⟨.wrapf "failed to get user by ID" (.sentinel .ErrUserNotFound), ?_, by decide,
        by decide, by decide⟩, ?_,
      ⟨.wrapf "failed to find user for deletion" (.sentinel .ErrUserNotFound), ?_, by decide,
        by decide, by decide⟩⟩
    · simp [UserService.GetUserByID, FindByID, h]
    · intro now email name
      refine ⟨.wrapf "failed to find user for update" (.sentinel .ErrUserNotFound), ?_,
        by decide, by decide, by decide⟩
      simp [UserService.UpdateUser, FindByID, h]
    · simp [UserService.DeleteUser, FindByID, h]
  · intro order email h
    refine ⟨.wrapf "failed to get user by email" (.sentinel .ErrUserNotFound), ?_, by decide,
      by decide, by decide⟩
    simp [UserService.GetUserByEmail, findByEmail_none s.repo email h order]

theorem service_wraps_ErrUserNotFound_witness :
    (∃ e, sampleService.GetUserByID "non-existent-id" = (none, some e) ∧
        e.Is .ErrUserNotFound = true ∧ e ≠ .sentinel .ErrUserNotFound ∧
        e.Error = "failed to get user by ID: user not found") ∧
    (∃ e, sampleService.UpdateUser 2 "non-existent-id" "updated@example.com" "Updated Name" =
          (some e, sampleService) ∧
        e.Is .ErrUserNotFound = true ∧ e ≠ .sentinel .ErrUserNotFound ∧
        e.Error = "failed to find user for update: user not found") ∧
    (∃ e, (NewUserService NewMockUserRepository).GetUserByEmail [] "notfound@example.com" =
          (none, some e) ∧
        e.Is .ErrUserNotFound = true ∧ e ≠ .sentinel .ErrUserNotFound ∧
        e.Error = "failed to get user by email: user not found") :=
  ⟨((service_wraps_ErrUserNotFound sampleService).1 "non-existent-id" (by decide)).1,
   ((service_wraps_ErrUserNotFound sampleService).1 "non-existent-id" (by decide)).2.1
      2 "updated@example.com" "Updated Name",
   (service_wraps_ErrUserNotFound (NewUserService NewMockUserRepository)).2 []
      "notfound@example.com" (by intro id u h; simp [NewUserService, NewMockUserRepository] at h)⟩

/-- C15. When no stored user has the email, `CreateUser` with an email that does
not validate fails with a wrapper of `ErrInvalidEmail` that reads "failed to
create user: email validation failed: invalid email format", and with a valid
email and the empty name it fails with a wrapper of `ErrEmptyName` that reads
"failed to create user: name cannot be empty"; no user is returned and the store
is unchanged. -/
theorem CreateUser_propagates_validation_errors (s : UserService) (order : List UserID)
    (now : Time) (email : String)
    (hfree : ∀ id u, s.repo.users id = some u → u.Email ≠ email) :
    (Email.Validate email ≠ none → ∀ name : String,
      ∃ e, s.CreateUser order now email name = ((none, some e), s) ∧
        e.Is .ErrInvalidEmail = true ∧ e ≠ .sentinel .ErrInvalidEmail ∧
        e.Error = "failed to create user: email validation failed: invalid email format") ∧
    (Email.Validate email = none →
      ∃ e, s.CreateUser order now email "" = ((none, some e), s) ∧
        e.Is .ErrEmptyName = true ∧ e ≠ .sentinel .ErrEmptyName ∧
        e.Error = "failed to create user: name cannot be empty") := by
  have hfind := findByEmail_none s.repo email hfree order
  constructor
  · intro hv name
    refine ⟨.wrapf "failed to create user"
      (.wrapf "email validation failed" (.sentinel .ErrInvalidEmail)), ?_, by decide, by decide,
      by decide⟩
    simp [UserService.CreateUser, hfind, newUser_of_invalid now email name hv]
  · intro hv
    refine ⟨.wrapf "failed to create user" (.sentinel .ErrEmptyName), ?_, by decide, by decide,
      by decide⟩
    simp [UserService.CreateUser, hfind, newUser_of_empty now email hv]

theorem CreateUser_propagates_validation_errors_witness :
    (∃ e, (NewUserService NewMockUserRepository).CreateUser [] 1 "invalid-email" "Test User" =
          ((none, some e), NewUserService NewMockUserRepository) ∧
        e.Is .ErrInvalidEmail = true ∧ e ≠ .sentinel .ErrInvalidEmail ∧
        e.Error = "failed to create user: email validation failed: invalid email format") ∧
    (∃ e, (NewUserService NewMockUserRepository).CreateUser [] 1 "test@example.com" "" =
          ((none, some e), NewUserService NewMockUserRepository) ∧
        e.Is .ErrEmptyName = true ∧ e ≠ .sentinel .ErrEmptyName ∧
        e.Error = "failed to create user: name cannot be empty") :=
  ⟨(CreateUser_propagates_validation_errors (NewUserService NewMockUserRepository) [] 1
      "invalid-email" (by intro id u h; simp [NewUserService, NewMockUserRepository] at h)).1
      (by decide) "Test User",
   (CreateUser_propagates_validation_errors (NewUserService NewMockUserRepository) [] 1
      "test@example.com" (by intro id u h; simp [NewUserService, NewMockUserRepository] at h)).2
      (by decide)⟩

/-! ## Identifiers -/

/-- C16. For an email that validates, a non-empty name and a clock reading, the
user returned by `NewUser` has `ID` equal to "user_" followed by the decimal
numeral of the reading in nanoseconds (`UnixNano`, which is the instant's own
count of nanoseconds whenever that fits an `int64`), the given email and name,
and `CreatedAt` and `UpdatedAt` both equal to the instant read. -/
theorem NewUser_fields (now : Time) (email name : String)
    (hv : Email.Validate email = none) (hn : name ≠ "") :
    ∃ u, NewUser now email name = (some u, none) ∧
      u.ID = "user_" ++ toString (Time.UnixNano now) ∧
      ((-(2 ^ 63) : Int) ≤ now → now < (2 ^ 63 : Int) → u.ID = "user_" ++ toString now) ∧
      u.Email = email ∧ u.Name = name ∧ u.CreatedAt = now ∧ u.UpdatedAt = now := by
  refine ⟨_, newUser_of_valid now email name hv hn, rfl, ?_, rfl, rfl, rfl, rfl⟩
  intro hlo hhi
  show "user_" ++ toString (Time.UnixNano now) = "user_" ++ toString now
  rw [unixNano_of_int64 now hlo hhi]

theorem NewUser_fields_witness :
    ∃ u, NewUser 1700000000000000000 "test@example.com" "Test User" = (some u, none) ∧
      u.ID = "user_1700000000000000000" ∧
      u.Email = "test@example.com" ∧ u.Name = "Test User" ∧
      u.CreatedAt = 1700000000000000000 ∧ u.UpdatedAt = 1700000000000000000 :=
  let ⟨u, h1, _, h3, h4, h5, h6, h7⟩ :=
    NewUser_fields 1700000000000000000 "test@example.com" "Test User" (by decide) (by decide)
  ⟨u, h1, (h3 (by decide) (by decide)).trans (by decide), h4, h5, h6, h7⟩

/-- C20. The identifier depends on the clock reading alone: two users built by
`NewUser` have the same `ID` exactly when the two readings in nanoseconds
(`UnixNano`) are equal, whatever the emails and names; for instants whose count
of nanoseconds fits an `int64` that is exactly when the instants are equal. -/
theorem NewUser_ID_collides_iff_same_reading (now1 now2 : Time) (email1 name1 email2 name2 : String)
    (hv1 : Email.Validate email1 = none) (hn1 : name1 ≠ "")
    (hv2 : Email.Validate email2 = none) (hn2 : name2 ≠ "") :
    ∃ u1 u2, NewUser now1 email1 name1 = (some u1, none) ∧
      NewUser now2 email2 name2 = (some u2, none) ∧
      (u1.ID = u2.ID ↔ Time.UnixNano now1 = Time.UnixNano now2) ∧
      (now1 = now2 → u1.ID = u2.ID) ∧
      ((-(2 ^ 63) : Int) ≤ now1 → now1 < (2 ^ 63 : Int) →
        (-(2 ^ 63) : Int) ≤ now2 → now2 < (2 ^ 63 : Int) →
        (u1.ID = u2.ID ↔ now1 = now2)) := by
  have hiff : ("user_" ++ toString (Time.UnixNano now1) : String) =
      "user_" ++ toString (Time.UnixNano now2) ↔ Time.UnixNano now1 = Time.UnixNano now2 :=
    ⟨userID_injective _ _, fun h => by rw [h]⟩
  refine ⟨_, _, newUser_of_valid now1 email1 name1 hv1 hn1,
    newUser_of_valid now2 email2 name2 hv2 hn2, hiff, ?_, ?_⟩
  · intro h
    exact hiff.mpr (by rw [h])
  · intro h1 h2 h3 h4
    show ("user_" ++ toString (Time.UnixNano now1) : String) =
      "user_" ++ toString (Time.UnixNano now2) ↔ now1 = now2
    rw [hiff, unixNano_of_int64 now1 h1 h2, unixNano_of_int64 now2 h3 h4]

theorem NewUser_ID_collides_witness :
    ∃ u1 u2, NewUser 5 "first@example.com" "First" = (some u1, none) ∧
      NewUser 5 "second@example.com" "Second" = (some u2, none) ∧ u1.ID = u2.ID :=
  let ⟨u1, u2, h1, h2, _, h4, _⟩ :=
    NewUser_ID_collides_iff_same_reading 5 5 "first@example.com" "First" "second@example.com"
      "Second" (by decide) (by decide) (by decide) (by decide)
  ⟨u1, u2, h1, h2, h4 rfl⟩

open MockUserRepository

/-! ## Invariants of the reachable states -/

theorem keysAreIDs_empty : KeysAreIDs NewMockUserRepository := by
  intro id u h
  simp [NewMockUserRepository] at h

theorem keysAreIDs_put (m : MockUserRepository) (id : UserID) (u : User)
    (hm : KeysAreIDs m) (hu : u.ID = id) : KeysAreIDs (m.put id u) := by
  intro k v hv
  by_cases hk : k = id
  · subst hk
    have : v = u := by simpa [put] using hv.symm
    rw [this, hu]
  · exact hm k v (by simpa [put, hk] using hv)

theorem keysAreIDs_remove (m : MockUserRepository) (id : UserID) (hm : KeysAreIDs m) :
    KeysAreIDs (m.remove id) := by
  intro k v hv
  by_cases hk : k = id
  · simp [remove, hk] at hv
  · exact hm k v (by simpa [remove, hk] using hv)

theorem update_keeps_ID (u : User) (now : Time) (email name : String) :
    (u.Update now email name).2.ID = u.ID := by
  by_cases hv : Email.Validate email = none
  · by_cases hn : name = ""
    · subst hn; rw [update_of_empty u now email hv]
    · rw [update_of_valid u now email name hv hn]
  · rw [update_of_invalid u now email name hv]

theorem save_cases (m : MockUserRepository) (user : Option User) :
    (m.Save user).2 = m ∨ ∃ u, (m.Save user).2 = m.put u.ID u := by
  cases user with
  | none => exact Or.inl rfl
  | some u => exact Or.inr ⟨u, rfl⟩

theorem repoUpdate_cases (m : MockUserRepository) (user : Option User) :
    (m.Update user).2 = m ∨ ∃ u, (m.Update user).2 = m.put u.ID u := by
  cases user with
  | none => exact Or.inl rfl
  | some u =>
    cases h : m.users u.ID with
    | none => exact Or.inl (by simp [MockUserRepository.Update, h])
    | some v => exact Or.inr ⟨u, by simp [MockUserRepository.Update, h]⟩

theorem delete_cases (m : MockUserRepository) (id : UserID) :
    (m.Delete id).2 = m ∨ (m.Delete id).2 = m.remove id := by
  cases h : m.users id with
  | none => exact Or.inl (by simp [Delete, h])
  | some v => exact Or.inr (by simp [Delete, h])

theorem createUser_cases (m : MockUserRepository) (order : List UserID) (now : Time)
    (email name : String) :
    (UserService.CreateUser ⟨m⟩ order now email name).2.repo = m ∨
    (m.FindByEmail order email = (none, some (.sentinel .ErrUserNotFound)) ∧
      ∃ u, u.Email = email ∧
        (UserService.CreateUser ⟨m⟩ order now email name).2.repo = m.put u.ID u) := by
  rcases findByEmail_cases m email order with hf | ⟨id, -, u, -, -, hf⟩
  · by_cases hv : Email.Validate email = none
    · by_cases hn : name = ""
      · subst hn
        exact Or.inl (by simp [UserService.CreateUser, hf, newUser_of_empty now email hv])
      · exact Or.inr ⟨hf, ⟨"user_" ++ toString (Time.UnixNano now), email, name, now, now⟩, rfl,
          by simp [UserService.CreateUser, hf, newUser_of_valid now email name hv hn, Save]⟩
    · exact Or.inl (by simp [UserService.CreateUser, hf, newUser_of_invalid now email name hv])
  · exact Or.inl (by simp [UserService.CreateUser, hf])

theorem updateUser_cases (m : MockUserRepository) (now : Time) (id : UserID)
    (email name : String) :
    (UserService.UpdateUser ⟨m⟩ now id email name).2.repo = m ∨
    ∃ u, m.users id = some u ∧
      ((UserService.UpdateUser ⟨m⟩ now id email name).2.repo =
          m.put id (u.Update now email name).2 ∨
        (UserService.UpdateUser ⟨m⟩ now id email name).2.repo =
          (m.put id (u.Update now email name).2).put u.ID (u.Update now email name).2) := by
  cases hu : m.users id with
  | none => exact Or.inl (by simp [UserService.UpdateUser, FindByID, hu])
  | some u =>
    refine Or.inr ⟨u, rfl, ?_⟩
    by_cases hv : Email.Validate email = none
    · by_cases hn : name = ""
      · subst hn
        exact Or.inl (by
          simp [UserService.UpdateUser, FindByID, hu, update_of_empty u now email hv])
      · cases hx : (m.put id { u with Email := email, Name := name, UpdatedAt := now }).users u.ID
            with
        | none =>
          exact Or.inl (by
            simp [UserService.UpdateUser, FindByID, hu, update_of_valid u now email name hv hn,
              MockUserRepository.Update, hx])
        | some w =>
          exact Or.inr (by
            simp [UserService.UpdateUser, FindByID, hu, update_of_valid u now email name hv hn,
              MockUserRepository.Update, hx])
    · exact Or.inl (by
        simp [UserService.UpdateUser, FindByID, hu, update_of_invalid u now email name hv])

theorem deleteUser_cases (m : MockUserRepository) (id : UserID) :
    (UserService.DeleteUser ⟨m⟩ id).2.repo = m ∨
    (UserService.DeleteUser ⟨m⟩ id).2.repo = m.remove id := by
  cases h : m.users id with
  | none => exact Or.inl (by simp [UserService.DeleteUser, FindByID, h])
  | some v => exact Or.inr (by simp [UserService.DeleteUser, FindByID, Delete, h])

theorem keysAreIDs_step (m : MockUserRepository) (c : Call) (hm : KeysAreIDs m) :
    KeysAreIDs (Call.step m c) := by
  cases c with
  | save user =>
    rcases save_cases m user with h | ⟨u, h⟩
    · simpa [Call.step, h] using hm
    · simpa [Call.step, h] using keysAreIDs_put m u.ID u hm rfl
  | update user =>
    rcases repoUpdate_cases m user with h | ⟨u, h⟩
    · simpa [Call.step, h] using hm
    · simpa [Call.step, h] using keysAreIDs_put m u.ID u hm rfl
  | delete id =>
    rcases delete_cases m id with h | h
    · simpa [Call.step, h] using hm
    · simpa [Call.step, h] using keysAreIDs_remove m id hm
  | createUser order now email name =>
    rcases createUser_cases m order now email name with h | ⟨-, u, -, h⟩
    · simpa [Call.step, h] using hm
    · simpa [Call.step, h] using keysAreIDs_put m u.ID u hm rfl
  | updateUser now id email name =>
    rcases updateUser_cases m now id email name with h | ⟨u, hu, h | h⟩
    · simpa [Call.step, h] using hm
    · have hid : (u.Update now email name).2.ID = id := by
        rw [update_keeps_ID]; exact hm id u hu
      simpa [Call.step, h] using keysAreIDs_put m id _ hm hid
    · have hid : (u.Update now email name).2.ID = id := by
        rw [update_keeps_ID]; exact hm id u hu
      have h1 := keysAreIDs_put m id _ hm hid
      have h2 := keysAreIDs_put _ u.ID (u.Update now email name).2 h1 (update_keeps_ID u now email name)
      simpa [Call.step, h] using h2
  | deleteUser id =>
    rcases deleteUser_cases m id with h | h
    · simpa [Call.step, h] using hm
    · simpa [Call.step, h] using keysAreIDs_remove m id hm

theorem keysAreIDs_run (calls : List Call) :
    ∀ m : MockUserRepository, KeysAreIDs m → KeysAreIDs (run m calls) := by
  induction calls with
  | nil => intro m hm; exact hm
  | cons c cs ih => intro m hm; exact ih _ (keysAreIDs_step m c hm)

/-- C18. In every state reached from the empty repository by a sequence of
`Save`, `Update`, `Delete` and service calls, every key maps to a user whose `ID`
is that key: a user returned by a successful `FindByID(id)` or `GetUserByID(id)`
has `ID` equal to `id`. -/
theorem reachable_keys_are_IDs (calls : List Call) (id : UserID) (u : User) :
    KeysAreIDs (run NewMockUserRepository calls) ∧
    ((run NewMockUserRepository calls).FindByID id = (some u, none) → u.ID = id) ∧
    (UserService.GetUserByID ⟨run NewMockUserRepository calls⟩ id = (some u, none) →
      u.ID = id) := by
  have hinv := keysAreIDs_run calls NewMockUserRepository keysAreIDs_empty
  refine ⟨hinv, ?_, ?_⟩
  · intro h
    cases hu : (run NewMockUserRepository calls).users id with
    | none => simp [FindByID, hu] at h
    | some v =>
      simp [FindByID, hu] at h
      rw [← h]
      exact hinv id v hu
  · intro h
    cases hu : (run NewMockUserRepository calls).users id with
    | none => simp [UserService.GetUserByID, FindByID, hu] at h
    | some v =>
      simp [UserService.GetUserByID, FindByID, hu] at h
      rw [← h]
      exact hinv id v hu

theorem reachable_keys_are_IDs_witness :
    (run NewMockUserRepository duplicateEmailCalls).FindByID "user_2" =
      (some ⟨"user_2", "first@example.com", "Second", 2, 3⟩, none) ∧
    (⟨"user_2", "first@example.com", "Second", 2, 3⟩ : User).ID = "user_2" :=
  ⟨by decide,
   (reachable_keys_are_IDs duplicateEmailCalls "user_2"
      ⟨"user_2", "first@example.com", "Second", 2, 3⟩).2.1 (by decide)⟩

open MockUserRepository

/-! ## Uniqueness of emails -/

theorem uniqueEmails_remove (m : MockUserRepository) (id : UserID) (hm : UniqueEmails m) :
    UniqueEmails (m.remove id) := by
  intro id1 id2 u1 u2 h1 h2 he
  by_cases hk1 : id1 = id
  · simp [remove, hk1] at h1
  · by_cases hk2 : id2 = id
    · simp [remove, hk2] at h2
    · exact hm id1 id2 u1 u2 (by simpa [remove, hk1] using h1) (by simpa [remove, hk2] using h2) he

theorem uniqueEmails_put_fresh (m : MockUserRepository) (u : User) (hm : UniqueEmails m)
    (hfree : ∀ id v, m.users id = some v → v.Email ≠ u.Email) :
    UniqueEmails (m.put u.ID u) := by
  intro id1 id2 u1 u2 h1 h2 he
  by_cases hk1 : id1 = u.ID
  · by_cases hk2 : id2 = u.ID
    · rw [hk1, hk2]
    · have e1 : u1 = u := by simpa [put, hk1] using h1.symm
      have o2 : m.users id2 = some u2 := by simpa [put, hk2] using h2
      exact absurd (by rw [← he, e1]) (hfree id2 u2 o2)
  · have o1 : m.users id1 = some u1 := by simpa [put, hk1] using h1
    by_cases hk2 : id2 = u.ID
    · have e2 : u2 = u := by simpa [put, hk2] using h2.symm
      exact absurd (by rw [he, e2]) (hfree id1 u1 o1)
    · exact hm id1 id2 u1 u2 o1 (by simpa [put, hk2] using h2) he

/-- The sibling path: `CreateUser` keeps the emails of the stored users distinct. -/
theorem createUser_keeps_emails_unique (m : MockUserRepository) (order : List UserID)
    (now : Time) (email name : String) (horder : m.RangeOrder order) (hm : UniqueEmails m) :
    UniqueEmails (UserService.CreateUser ⟨m⟩ order now email name).2.repo := by
  rcases createUser_cases m order now email name with h | ⟨hf, u, he, h⟩
  · rw [h]; exact hm
  · rw [h]
    apply uniqueEmails_put_fresh m u hm
    intro id v hv hve
    have hmem : id ∈ order := (horder.2 id).mpr (by simp [hv])
    obtain ⟨_, -, w, -, -, hfound⟩ :=
      findByEmail_found m email order ⟨id, hmem, v, hv, hve.trans he⟩
    rw [hf] at hfound
    cases hfound

/-- The service call `DeleteUser` keeps the emails of the stored users distinct. -/
theorem deleteUser_keeps_emails_unique (m : MockUserRepository) (id : UserID)
    (hm : UniqueEmails m) : UniqueEmails (UserService.DeleteUser ⟨m⟩ id).2.repo := by
  rcases deleteUser_cases m id with h | h
  · rw [h]; exact hm
  · rw [h]; exact uniqueEmails_remove m id hm

/-- C19 (the code at the failing input). Three service calls, each returning nil
(two `CreateUser` with different emails, then `UpdateUser` giving the second user
the email of the first), leave two stored users with the same email. -/
theorem UpdateUser_duplicates_an_email :
    (∀ c ∈ duplicateEmailCalls, c.isService = true) ∧
    AdmissibleRun NewMockUserRepository duplicateEmailCalls ∧
    runErrors NewMockUserRepository duplicateEmailCalls = [none, none, none] ∧
    (run NewMockUserRepository duplicateEmailCalls).users "user_1" =
      some ⟨"user_1", "first@example.com", "First", 1, 1⟩ ∧
    (run NewMockUserRepository duplicateEmailCalls).users "user_2" =
      some ⟨"user_2", "first@example.com", "Second", 2, 3⟩ ∧
    ¬ UniqueEmails (run NewMockUserRepository duplicateEmailCalls) := by
  have h1 : (run NewMockUserRepository duplicateEmailCalls).users "user_1" =
      some ⟨"user_1", "first@example.com", "First", 1, 1⟩ := by decide
  have h2 : (run NewMockUserRepository duplicateEmailCalls).users "user_2" =
      some ⟨"user_2", "first@example.com", "Second", 2, 3⟩ := by decide
  refine ⟨by decide, ?_, by decide, h1, h2, ?_⟩
  · refine ⟨⟨by decide, ?_⟩, ⟨⟨by decide, ?_⟩, trivial, trivial⟩⟩
    · intro id
      simp [NewMockUserRepository]
    · intro id
      by_cases h : id = "user_1"
      · subst h; decide
      · have hnone : (Call.step NewMockUserRepository
            (.createUser [] 1 "first@example.com" "First")).users id = none := by
          have hstep : Call.step NewMockUserRepository
              (.createUser [] 1 "first@example.com" "First") =
              NewMockUserRepository.put "user_1" ⟨"user_1", "first@example.com", "First", 1, 1⟩ := by
            rfl
          rw [hstep]
          simp [put, NewMockUserRepository, h]
        simp [hnone, h]
  · intro hu
    have := hu "user_1" "user_2" _ _ h1 h2 rfl
    revert this
    decide

open MockUserRepository

/-! ## Failure leaves the store alone -/

theorem createUser_error_keeps_store (s : UserService) (order : List UserID) (now : Time)
    (email name : String) (herr : (s.CreateUser order now email name).1.2 ≠ none) :
    (s.CreateUser order now email name).2 = s := by
  rcases findByEmail_cases s.repo email order with hf | ⟨id, -, u, -, -, hf⟩
  · by_cases hv : Email.Validate email = none
    · by_cases hn : name = ""
      · subst hn
        simp [UserService.CreateUser, hf, newUser_of_empty now email hv]
      · exact absurd
          (by simp [UserService.CreateUser, hf, newUser_of_valid now email name hv hn, Save])
          herr
    · simp [UserService.CreateUser, hf, newUser_of_invalid now email name hv]
  · simp [UserService.CreateUser, hf]

theorem deleteUser_error_keeps_store (s : UserService) (id : UserID)
    (herr : (s.DeleteUser id).1 ≠ none) : (s.DeleteUser id).2 = s := by
  cases h : s.repo.users id with
  | none => simp [UserService.DeleteUser, FindByID, h]
  | some v => exact absurd (by simp [UserService.DeleteUser, FindByID, Delete, h]) herr

theorem updateUser_rejected_keeps_store (s : UserService) (now : Time) (id : UserID)
    (email name : String) (u : User) (hu : s.repo.users id = some u)
    (hbad : Email.Validate email ≠ none ∨ name = "") :
    (s.UpdateUser now id email name).1 ≠ none ∧ (s.UpdateUser now id email name).2 = s := by
  have hsame : (⟨s.repo.put id u⟩ : UserService) = s := by
    rw [put_same s.repo id u hu]
  by_cases hv : Email.Validate email = none
  · rcases hbad with h | h
    · exact absurd hv h
    · subst h
      simp [UserService.UpdateUser, FindByID, hu, update_of_empty u now email hv, hsame]
  · simp [UserService.UpdateUser, FindByID, hu, update_of_invalid u now email name hv, hsame]

theorem updateUser_error_keeps_store (s : UserService) (now : Time) (id : UserID)
    (email name : String) (hid : ∀ u, s.repo.users id = some u → u.ID = id)
    (herr : (s.UpdateUser now id email name).1 ≠ none) :
    (s.UpdateUser now id email name).2 = s := by
  cases hu : s.repo.users id with
  | none => simp [UserService.UpdateUser, FindByID, hu]
  | some u =>
    by_cases hbad : Email.Validate email ≠ none ∨ name = ""
    · exact (updateUser_rejected_keeps_store s now id email name u hu hbad).2
    · have hv : Email.Validate email = none := by
        by_contra h; exact hbad (Or.inl h)
      have hn : name ≠ "" := fun h => hbad (Or.inr h)
      have hkey : u.ID = id := hid u hu
      refine absurd ?_ herr
      simp [UserService.UpdateUser, FindByID, hu, update_of_valid u now email name hv hn,
        MockUserRepository.Update, put, hkey]

/-- C21 (as stated, refuted): on a store holding under the key `a` a user whose
`ID` is `b`, `UpdateUser` returns an error and yet the entry under `a` has been
rewritten with the new email, name and update time. -/
theorem UpdateUser_error_after_write :
    (strayService.UpdateUser 2 "a" "updated@example.com" "Updated Name").1 ≠ none ∧
    strayService.repo.users "a" = some ⟨"b", "test@example.com", "Test User", 1, 1⟩ ∧
    (strayService.UpdateUser 2 "a" "updated@example.com" "Updated Name").2.repo.users "a" =
      some ⟨"b", "updated@example.com", "Updated Name", 1, 2⟩ ∧
    (strayService.UpdateUser 2 "a" "updated@example.com" "Updated Name").2 ≠ strayService := by
  refine ⟨by decide, by decide, by decide, ?_⟩
  intro h
  have h2 := congrArg (fun t : UserService => t.repo.users "a") h
  revert h2
  decide

/-- C21 (amended). A failed service call leaves the store as it was: always for
`CreateUser` and `DeleteUser`; for `UpdateUser(id, ...)` whenever the user stored
under `id` carries `id` as its `ID`, which is so in every state reached from the
empty repository by repository and service calls. In every state `UpdateUser`
with an email that does not validate or with the empty name, on a stored id,
fails and leaves the stored user (email, name and update time included) as it
was. -/
theorem service_calls_atomic_on_failure (s : UserService) :
    (∀ (order : List UserID) (now : Time) (email name : String),
      (s.CreateUser order now email name).1.2 ≠ none →
        (s.CreateUser order now email name).2 = s) ∧
    (∀ id : UserID, (s.DeleteUser id).1 ≠ none → (s.DeleteUser id).2 = s) ∧
    (∀ (now : Time) (id : UserID) (email name : String),
      (∀ u, s.repo.users id = some u → u.ID = id) →
      (s.UpdateUser now id email name).1 ≠ none → (s.UpdateUser now id email name).2 = s) ∧
    (∀ (calls : List Call) (now : Time) (id : UserID) (email name : String),
      (UserService.UpdateUser ⟨run NewMockUserRepository calls⟩ now id email name).1 ≠ none →
      (UserService.UpdateUser ⟨run NewMockUserRepository calls⟩ now id email name).2 =
        ⟨run NewMockUserRepository calls⟩) ∧
    (∀ (now : Time) (id : UserID) (email name : String) (u : User),
      s.repo.users id = some u → (Email.Validate email ≠ none ∨ name = "") →
      (s.UpdateUser now id email name).1 ≠ none ∧
      (s.UpdateUser now id email name).2 = s ∧
      ∃ v, (s.UpdateUser now id email name).2.repo.users id = some v ∧
        v.Email = u.Email ∧ v.Name = u.Name ∧ v.UpdatedAt = u.UpdatedAt) := by
  refine ⟨createUser_error_keeps_store s, deleteUser_error_keeps_store s,
    updateUser_error_keeps_store s, ?_, ?_⟩
  · intro calls now id email name herr
    exact updateUser_error_keeps_store _ now id email name
      (fun u hu => keysAreIDs_run calls NewMockUserRepository keysAreIDs_empty id u hu) herr
  · intro now id email name u hu hbad
    obtain ⟨h1, h2⟩ := updateUser_rejected_keeps_store s now id email name u hu hbad
    refine ⟨h1, h2, u, ?_, rfl, rfl, rfl⟩
    rw [h2]
    exact hu

theorem service_calls_atomic_on_failure_witness :
    (sampleService.CreateUser ["user_1"] 5 "test@example.com" "Another Name").2 =
      sampleService ∧
    (sampleService.DeleteUser "non-existent-id").2 = sampleService ∧
    (sampleService.UpdateUser 2 "non-existent-id" "updated@example.com" "Updated Name").2 =
      sampleService ∧
    (sampleService.UpdateUser 2 "user_1" "invalid-email" "Updated Name").2 = sampleService ∧
    (sampleService.UpdateUser 2 "user_1" "updated@example.com" "").2 = sampleService :=
  ⟨(service_calls_atomic_on_failure sampleService).1 ["user_1"] 5 "test@example.com"
      "Another Name" (by decide),
   (service_calls_atomic_on_failure sampleService).2.1 "non-existent-id" (by decide),
   (service_calls_atomic_on_failure sampleService).2.2.1 2 "non-existent-id"
      "updated@example.com" "Updated Name" (by
        intro u hu
        have hnone : sampleService.repo.users "non-existent-id" = none := by decide
        rw [hnone] at hu
        cases hu)
      (by decide),
   ((service_calls_atomic_on_failure sampleService).2.2.2.2 2 "user_1" "invalid-email"
      "Updated Name" sampleUser (by decide) (Or.inl (by decide))).2.1,
   ((service_calls_atomic_on_failure sampleService).2.2.2.2 2 "user_1" "updated@example.com"
      "" sampleUser (by decide) (Or.inr rfl)).2.1⟩

open MockUserRepository

/-! ## The persistence steps cannot fail -/

theorem save_of_newUser_succeeds (m : MockUserRepository) (now : Time) (email name : String)
    (user : Option User) (h : NewUser now email name = (user, none)) :
    (m.Save user).1 = none := by
  by_cases hv : Email.Validate email = none
  · by_cases hn : name = ""
    · subst hn
      rw [newUser_of_empty now email hv] at h
      cases h
    · rw [newUser_of_valid now email name hv hn] at h
      cases h
      rfl
  · rw [newUser_of_invalid now email name hv] at h
    cases h

theorem delete_after_find_succeeds (m : MockUserRepository) (id : UserID) (u : User)
    (h : m.FindByID id = (some u, none)) : (m.Delete id).1 = none := by
  cases hu : m.users id with
  | none => simp [FindByID, hu] at h
  | some v => simp [Delete, hu]

theorem repoUpdate_after_find_succeeds (m : MockUserRepository) (now : Time) (id : UserID)
    (email name : String) (u : User) (hkeys : KeysAreIDs m)
    (h : m.FindByID id = (some u, none)) :
    ((m.put id (u.Update now email name).2).Update (some (u.Update now email name).2)).1 =
      none := by
  cases hu : m.users id with
  | none => simp [FindByID, hu] at h
  | some v =>
    have huv : v = u := by simpa [FindByID, hu] using h
    subst huv
    have hid : (v.Update now email name).2.ID = id := by
      rw [update_keeps_ID]; exact hkeys id v hu
    simp [MockUserRepository.Update, put, hid]

theorem createUser_error_forms (s : UserService) (order : List UserID) (now : Time)
    (email name : String) :
    (s.CreateUser order now email name).1.2 = none ∨
    (s.CreateUser order now email name).1.2 = some (.sentinel .ErrUserAlreadyExists) ∨
    ∃ cause, (s.CreateUser order now email name).1.2 =
      some (.wrapf "failed to create user" cause) := by
  rcases findByEmail_cases s.repo email order with hf | ⟨id, -, u, -, -, hf⟩
  · by_cases hv : Email.Validate email = none
    · by_cases hn : name = ""
      · subst hn
        exact Or.inr (Or.inr ⟨.sentinel .ErrEmptyName, by
          simp [UserService.CreateUser, hf, newUser_of_empty now email hv]⟩)
      · exact Or.inl (by
          simp [UserService.CreateUser, hf, newUser_of_valid now email name hv hn, Save])
    · exact Or.inr (Or.inr ⟨.wrapf "email validation failed" (.sentinel .ErrInvalidEmail), by
        simp [UserService.CreateUser, hf, newUser_of_invalid now email name hv]⟩)
  · exact Or.inr (Or.inl (by simp [UserService.CreateUser, hf]))

theorem updateUser_error_forms (s : UserService) (now : Time) (id : UserID)
    (email name : String) (hkeys : KeysAreIDs s.repo) :
    (s.UpdateUser now id email name).1 = none ∨
    (s.UpdateUser now id email name).1 =
      some (.wrapf "failed to find user for update" (.sentinel .ErrUserNotFound)) ∨
    ∃ cause, (s.UpdateUser now id email name).1 = some (.wrapf "failed to update user" cause) := by
  cases hu : s.repo.users id with
  | none => exact Or.inr (Or.inl (by simp [UserService.UpdateUser, FindByID, hu]))
  | some u =>
    by_cases hv : Email.Validate email = none
    · by_cases hn : name = ""
      · subst hn
        exact Or.inr (Or.inr ⟨.sentinel .ErrEmptyName, by
          simp [UserService.UpdateUser, FindByID, hu, update_of_empty u now email hv]⟩)
      · have hkey : u.ID = id := hkeys id u hu
        exact Or.inl (by
          simp [UserService.UpdateUser, FindByID, hu, update_of_valid u now email name hv hn,
            MockUserRepository.Update, put, hkey])
    · exact Or.inr (Or.inr ⟨.wrapf "email validation failed" (.sentinel .ErrInvalidEmail), by
        simp [UserService.UpdateUser, FindByID, hu, update_of_invalid u now email name hv]⟩)

theorem deleteUser_error_forms (s : UserService) (id : UserID) :
    (s.DeleteUser id).1 = none ∨
    (s.DeleteUser id).1 =
      some (.wrapf "failed to find user for deletion" (.sentinel .ErrUserNotFound)) := by
  cases hu : s.repo.users id with
  | none => exact Or.inr (by simp [UserService.DeleteUser, FindByID, hu])
  | some u => exact Or.inl (by simp [UserService.DeleteUser, FindByID, Delete, hu])

/-- C22. In every state reached from the empty repository by repository and
service calls, the persistence steps of the service do not fail: `Save` accepts
the user `NewUser` has built, the repository `Update` and `Delete` succeed once
`FindByID` has; so `CreateUser` never returns "failed to save user", `UpdateUser`
never "failed to save updated user" and `DeleteUser` never "failed to delete
user". -/
theorem persistence_failures_unreachable (calls : List Call) :
    (∀ (now : Time) (email name : String) (user : Option User),
      NewUser now email name = (user, none) →
      ((run NewMockUserRepository calls).Save user).1 = none) ∧
    (∀ (now : Time) (id : UserID) (email name : String) (u : User),
      (run NewMockUserRepository calls).FindByID id = (some u, none) →
      (((run NewMockUserRepository calls).put id (u.Update now email name).2).Update
        (some (u.Update now email name).2)).1 = none) ∧
    (∀ (id : UserID) (u : User),
      (run NewMockUserRepository calls).FindByID id = (some u, none) →
      ((run NewMockUserRepository calls).Delete id).1 = none) ∧
    (∀ (order : List UserID) (now : Time) (email name : String) (cause : GoError),
      (UserService.CreateUser ⟨run NewMockUserRepository calls⟩ order now email name).1.2 ≠
        some (.wrapf "failed to save user" cause)) ∧
    (∀ (now : Time) (id : UserID) (email name : String) (cause : GoError),
      (UserService.UpdateUser ⟨run NewMockUserRepository calls⟩ now id email name).1 ≠
        some (.wrapf "failed to save updated user" cause)) ∧
    (∀ (id : UserID) (cause : GoError),
      (UserService.DeleteUser ⟨run NewMockUserRepository calls⟩ id).1 ≠
        some (.wrapf "failed to delete user" cause)) := by
  have hkeys := keysAreIDs_run calls NewMockUserRepository keysAreIDs_empty
  refine ⟨?_, ?_, ?_, ?_, ?_, ?_⟩
  · intro now email name user h
    exact save_of_newUser_succeeds _ now email name user h
  · intro now id email name u h
    exact repoUpdate_after_find_succeeds _ now id email name u hkeys h
  · intro id u h
    exact delete_after_find_succeeds _ id u h
  · intro order now email name cause h
    rcases createUser_error_forms ⟨run NewMockUserRepository calls⟩ order now email name
      with h0 | h0 | ⟨c, h0⟩
    · rw [h0] at h; cases h
    · rw [h0] at h; cases h
    · rw [h0] at h
      have hctx : ("failed to create user" : String) = "failed to save user" := by
        injection h with h1
        injection h1
      revert hctx
      decide
  · intro now id email name cause h
    rcases updateUser_error_forms ⟨run NewMockUserRepository calls⟩ now id email name hkeys
      with h0 | h0 | ⟨c, h0⟩
    · rw [h0] at h; cases h
    · rw [h0] at h
      have hctx : ("failed to find user for update" : String) = "failed to save updated user" := by
        injection h with h1
        injection h1
      revert hctx
      decide
    · rw [h0] at h
      have hctx : ("failed to update user" : String) = "failed to save updated user" := by
        injection h with h1
        injection h1
      revert hctx
      decide
  · intro id cause h
    rcases deleteUser_error_forms ⟨run NewMockUserRepository calls⟩ id with h0 | h0
    · rw [h0] at h; cases h
    · rw [h0] at h
      have hctx : ("failed to find user for deletion" : String) = "failed to delete user" := by
        injection h with h1
        injection h1
      revert hctx
      decide

theorem persistence_failures_unreachable_witness :
    (((run NewMockUserRepository duplicateEmailCalls).put "user_2"
        (User.Update ⟨"user_2", "first@example.com", "Second", 2, 3⟩ 4 "third@example.com"
          "Third").2).Update
      (some (User.Update ⟨"user_2", "first@example.com", "Second", 2, 3⟩ 4 "third@example.com"
        "Third").2)).1 = none ∧
    ((run NewMockUserRepository duplicateEmailCalls).Delete "user_1").1 = none :=
  ⟨(persistence_failures_unreachable duplicateEmailCalls).2.1 4 "user_2" "third@example.com"
      "Third" ⟨"user_2", "first@example.com", "Second", 2, 3⟩ (by decide),
   (persistence_failures_unreachable duplicateEmailCalls).2.2.1 "user_1"
      ⟨"user_1", "first@example.com", "First", 1, 1⟩ (by decide)⟩

/-! ## Updating through a reference -/

namespace Ptr

theorem keysAreIDs_no_sharing (m : MockUserRepository) (hkeys : m.KeysAreIDs)
    (k1 k2 : UserID) (q : Ref) (h1 : m.users k1 = some q) (h2 : m.users k2 = some q) :
    k1 = k2 := by
  rw [← hkeys k1 q h1, ← hkeys k2 q h2]

theorem keysAreIDs_of_view (m : MockUserRepository) (h : UserDomain.KeysAreIDs m.view) :
    m.KeysAreIDs := by
  intro id p hp
  exact h id (m.heap p) (by simp [MockUserRepository.view, MockUserRepository.lookup, hp])

theorem view_write (m : MockUserRepository) (p : Ref) (id : UserID) (u1 : User)
    (hp : m.users id = some p)
    (hinj : ∀ k1 k2 q, m.users k1 = some q → m.users k2 = some q → k1 = k2) :
    MockUserRepository.view ⟨fun q => if q = p then u1 else m.heap q, m.users⟩ =
      m.view.put id u1 := by
  simp only [MockUserRepository.view, UserDomain.MockUserRepository.put,
    UserDomain.MockUserRepository.mk.injEq]
  funext k
  by_cases hk : k = id
  · subst hk
    simp [MockUserRepository.lookup, hp]
  · cases hq : m.users k with
    | none => simp [MockUserRepository.lookup, hq, hk]
    | some q =>
      have hne : q ≠ p := by
        rintro rfl
        exact hk (hinj k id q hq hp)
      simp [MockUserRepository.lookup, hq, hk, hne]

theorem view_repoUpdate (m : MockUserRepository) (p : Ref) :
    (m.Update (some p)).1 = (m.view.Update (some (m.heap p))).1 ∧
    (m.Update (some p)).2.view = (m.view.Update (some (m.heap p))).2 := by
  cases hq : m.users (m.heap p).ID with
  | none =>
    have hval : m.view.users (m.heap p).ID = none := by
      simp [MockUserRepository.view, MockUserRepository.lookup, hq]
    have hL : m.Update (some p) = (some (.sentinel .ErrUserNotFound), m) := by
      simp [MockUserRepository.Update, hq]
    have hR : m.view.Update (some (m.heap p)) = (some (.sentinel .ErrUserNotFound), m.view) := by
      simp [UserDomain.MockUserRepository.Update, hval]
    rw [hL, hR]
    exact ⟨rfl, rfl⟩
  | some q =>
    have hval : m.view.users (m.heap p).ID = some (m.heap q) := by
      simp [MockUserRepository.view, MockUserRepository.lookup, hq]
    have hL : m.Update (some p) =
        (none, ⟨m.heap, fun k => if k = (m.heap p).ID then some p else m.users k⟩) := by
      simp [MockUserRepository.Update, hq]
    have hR : m.view.Update (some (m.heap p)) =
        (none, m.view.put (m.heap p).ID (m.heap p)) := by
      simp [UserDomain.MockUserRepository.Update, hval]
    rw [hL, hR]
    refine ⟨rfl, ?_⟩
    simp only [MockUserRepository.view, UserDomain.MockUserRepository.put,
      UserDomain.MockUserRepository.mk.injEq]
    funext k
    by_cases hk : k = (m.heap p).ID
    · simp [MockUserRepository.lookup, hk]
    · simp [MockUserRepository.lookup, hk]

/-- Where no object is held under two keys, `UpdateUser` on the map of references
has the error and the contents that `UpdateUser` on the contents has. -/
theorem view_UpdateUser (s : UserService) (now : Time) (id : UserID) (email name : String)
    (hinj : ∀ k1 k2 q, s.repo.users k1 = some q → s.repo.users k2 = some q → k1 = k2) :
    (s.UpdateUser now id email name).1 =
      (UserDomain.UserService.UpdateUser ⟨s.repo.view⟩ now id email name).1 ∧
    (s.UpdateUser now id email name).2.repo.view =
      (UserDomain.UserService.UpdateUser ⟨s.repo.view⟩ now id email name).2.repo := by
  cases hp : s.repo.users id with
  | none =>
    simp [UserService.UpdateUser, MockUserRepository.FindByID, hp,
      UserDomain.UserService.UpdateUser, UserDomain.MockUserRepository.FindByID,
      MockUserRepository.view, MockUserRepository.lookup]
  | some p =>
    have hview : s.repo.view.users id = some (s.repo.heap p) := by
      simp [MockUserRepository.view, MockUserRepository.lookup, hp]
    have hw := view_write s.repo p id ((s.repo.heap p).Update now email name).2 hp hinj
    have hu := view_repoUpdate
      ⟨fun q => if q = p then ((s.repo.heap p).Update now email name).2 else s.repo.heap q,
        s.repo.users⟩ p
    simp only [if_true] at hu
    rw [hw] at hu
    have hLfind : s.repo.FindByID id = (some p, none) := by
      simp [MockUserRepository.FindByID, hp]
    have hRfind : s.repo.view.FindByID id = (some (s.repo.heap p), none) := by
      simp [UserDomain.MockUserRepository.FindByID, hview]
    have hat : s.repo.updateAt p now email name =
        (((s.repo.heap p).Update now email name).1,
          ⟨fun q => if q = p then ((s.repo.heap p).Update now email name).2 else s.repo.heap q,
            s.repo.users⟩) := rfl
    rcases hr : (s.repo.heap p).Update now email name with ⟨e, u1⟩
    rw [hr] at hw hu hat
    simp only at hw hu hat
    cases e with
    | some err =>
      simp only [UserService.UpdateUser, hLfind, hat, UserDomain.UserService.UpdateUser, hRfind,
        hr]
      exact ⟨trivial, hw⟩
    | none =>
      simp only [UserService.UpdateUser, hLfind, hat, UserDomain.UserService.UpdateUser, hRfind,
        hr]
      rcases hL : MockUserRepository.Update
          ⟨fun q => if q = p then u1 else s.repo.heap q, s.repo.users⟩ (some p) with ⟨e2, m2⟩
      rcases hR : (s.repo.view.put id u1).Update (some u1) with ⟨e3, m3⟩
      rw [hL, hR] at hu
      simp only at hu
      obtain ⟨h1, h2⟩ := hu
      subst h1
      cases e2 with
      | some err => exact ⟨rfl, h2⟩
      | none => exact ⟨rfl, h2⟩

end Ptr

/-- C9 (as stated, refuted). With one object whose `ID` is `b` held under the key
`a`, `UpdateUser("a", ...)` with a valid email and name returns an error; with
that object held under both `a` and `b`, `UpdateUser("b", ...)` returns nil and
the user stored under `a` has changed. -/
theorem UpdateUser_needs_users_under_own_IDs :
    (Ptr.strayRepo.users "a").isSome = true ∧
    Email.Validate "updated@example.com" = none ∧
    ("Updated Name" : String) ≠ "" ∧
    (Ptr.UserService.UpdateUser ⟨Ptr.strayRepo⟩ 2 "a" "updated@example.com" "Updated Name").1 =
      some (.wrapf "failed to save updated user" (.sentinel .ErrUserNotFound)) ∧
    (Ptr.sharedRepo.users "b").isSome = true ∧
    (Ptr.UserService.UpdateUser ⟨Ptr.sharedRepo⟩ 2 "b" "updated@example.com" "Updated Name").1 =
      none ∧
    Ptr.sharedRepo.lookup "a" = some ⟨"b", "test@example.com", "Test User", 1, 1⟩ ∧
    (Ptr.UserService.UpdateUser ⟨Ptr.sharedRepo⟩ 2 "b" "updated@example.com"
        "Updated Name").2.repo.lookup "a" =
      some ⟨"b", "updated@example.com", "Updated Name", 1, 2⟩ := by
  refine ⟨by decide, by decide, by decide, by decide, by decide, by decide, by decide, by decide⟩

/-- C9 (amended). In a state where every key maps to a user whose `ID` is that
key (so in every state whose contents are reached from the empty repository by
repository and service calls), for a stored id, an email that validates and a
non-empty name, `UpdateUser` returns nil; afterwards `GetUserByID` returns the
user with the new email and name, the same `ID` and `CreatedAt`, and `UpdatedAt`
equal to the clock reading of the update (later than before when the clock has
advanced); the user stored under every other id is unchanged. -/
theorem UpdateUser_succeeds_when_keys_are_IDs (s : Ptr.UserService) (now : Time) (id : UserID)
    (email name : String) (user : Ref)
    (hstored : s.repo.users id = some user)
    (hkeys : s.repo.KeysAreIDs ∨
      ∃ calls : List Call, s.repo.view = run NewMockUserRepository calls)
    (hv : Email.Validate email = none) (hn : name ≠ "") :
    ∃ s', s.UpdateUser now id email name = (none, s') ∧
      s'.GetUserByID id = (some user, none) ∧
      (s'.repo.heap user).Email = email ∧ (s'.repo.heap user).Name = name ∧
      (s'.repo.heap user).ID = (s.repo.heap user).ID ∧
      (s'.repo.heap user).CreatedAt = (s.repo.heap user).CreatedAt ∧
      (s'.repo.heap user).UpdatedAt = now ∧
      ((s.repo.heap user).UpdatedAt < now →
        (s.repo.heap user).UpdatedAt < (s'.repo.heap user).UpdatedAt) ∧
      ∀ k, k ≠ id → s'.repo.lookup k = s.repo.lookup k := by
  have hk : s.repo.KeysAreIDs := by
    rcases hkeys with h | ⟨calls, h⟩
    · exact h
    · apply Ptr.keysAreIDs_of_view
      rw [h]
      exact keysAreIDs_run calls NewMockUserRepository keysAreIDs_empty
  have hid : (s.repo.heap user).ID = id := hk id user hstored
  have hfind : s.repo.FindByID id = (some user, none) := by
    simp [Ptr.MockUserRepository.FindByID, hstored]
  have hat : s.repo.updateAt user now email name =
      (none, ⟨fun q => if q = user then
          { s.repo.heap user with Email := email, Name := name, UpdatedAt := now }
        else s.repo.heap q, s.repo.users⟩) := by
    simp [Ptr.MockUserRepository.updateAt, update_of_valid _ now email name hv hn]
  have hupd : Ptr.MockUserRepository.Update
      ⟨fun q => if q = user then
          { s.repo.heap user with Email := email, Name := name, UpdatedAt := now }
        else s.repo.heap q, s.repo.users⟩ (some user) =
      (none, ⟨fun q => if q = user then
          { s.repo.heap user with Email := email, Name := name, UpdatedAt := now }
        else s.repo.heap q, fun k => if k = id then some user else s.repo.users k⟩) := by
    simp [Ptr.MockUserRepository.Update, hid, hstored]
  refine ⟨⟨⟨fun q => if q = user then
          { s.repo.heap user with Email := email, Name := name, UpdatedAt := now }
        else s.repo.heap q, fun k => if k = id then some user else s.repo.users k⟩⟩,
    ?_, ?_, ?_, ?_, ?_, ?_, ?_, ?_, ?_⟩
  · simp only [Ptr.UserService.UpdateUser, hfind, hat, hupd]
  · simp [Ptr.UserService.GetUserByID, Ptr.MockUserRepository.FindByID]
  · simp
  · simp
  · simp
  · simp
  · simp
  · intro h; simpa using h
  · intro k hne
    cases hq : s.repo.users k with
    | none => simp [Ptr.MockUserRepository.lookup, hne, hq]
    | some q =>
      have hqu : q ≠ user := by
        rintro rfl
        exact hne (Ptr.keysAreIDs_no_sharing s.repo hk k id q hq hstored)
      simp [Ptr.MockUserRepository.lookup, hne, hq, hqu]

theorem ownKeysRepo_is_reached :
    Ptr.ownKeysRepo.view =
      run NewMockUserRepository
        [.createUser [] 1 "first@example.com" "First",
         .createUser ["user_1"] 2 "second@example.com" "Second"] := by
  have hrun : run NewMockUserRepository
        [.createUser [] 1 "first@example.com" "First",
         .createUser ["user_1"] 2 "second@example.com" "Second"] =
      (NewMockUserRepository.put "user_1" ⟨"user_1", "first@example.com", "First", 1, 1⟩).put
        "user_2" ⟨"user_2", "second@example.com", "Second", 2, 2⟩ := by rfl
  rw [hrun]
  simp only [Ptr.MockUserRepository.view, MockUserRepository.put, NewMockUserRepository,
    MockUserRepository.mk.injEq]
  funext k
  by_cases h1 : k = "user_1"
  · subst h1; decide
  · by_cases h2 : k = "user_2"
    · subst h2; decide
    · simp [Ptr.MockUserRepository.lookup, Ptr.ownKeysRepo, h1, h2]

theorem UpdateUser_succeeds_when_keys_are_IDs_witness :
    ∃ s', Ptr.UserService.UpdateUser ⟨Ptr.ownKeysRepo⟩ 3 "user_2" "updated@example.com"
        "Updated Name" = (none, s') ∧
      s'.GetUserByID "user_2" = (some 1, none) ∧
      (s'.repo.heap 1).Email = "updated@example.com" ∧ (s'.repo.heap 1).Name = "Updated Name" ∧
      (s'.repo.heap 1).ID = (Ptr.ownKeysRepo.heap 1).ID ∧
      (s'.repo.heap 1).CreatedAt = (Ptr.ownKeysRepo.heap 1).CreatedAt ∧
      (s'.repo.heap 1).UpdatedAt = 3 ∧
      ((Ptr.ownKeysRepo.heap 1).UpdatedAt < 3 →
        (Ptr.ownKeysRepo.heap 1).UpdatedAt < (s'.repo.heap 1).UpdatedAt) ∧
      ∀ k, k ≠ "user_2" → s'.repo.lookup k = Ptr.ownKeysRepo.lookup k :=
  UpdateUser_succeeds_when_keys_are_IDs ⟨Ptr.ownKeysRepo⟩ 3 "user_2" "updated@example.com"
    "Updated Name" 1 (by decide)
    (Or.inr ⟨_, ownKeysRepo_is_reached⟩)
    (by decide) (by decide)

end UserDomain
